import Mathlib

/-!
Verification of the PySys test framework's process wrapper, result writers and
project-configuration loader, against a shallow embedding of the Python source
(`pysys/process/plat-win32/helper.py`, `pysys/writer/outcomes.py`,
`pysys/writer/testoutput.py`, `pysys/xml/project.py`).

Python strings are modelled as `List Char`; machine-level OS facilities
(file system, environment, Win32 API) are modelled as explicit parameters or
event traces.
-/

set_option maxHeartbeats 1000000

namespace PySys

/-- Python `str` is modelled as a list of characters. -/
abbrev Str := List Char

/-! ## Windows command-line quoting (`ProcessImpl.__quoteCommand`, `__quoteArgument`,
`__buildCommandLine` in `pysys/process/plat-win32/helper.py`) -/

/-- Whitespace as understood by the Windows command-line tokenizer (space or tab). -/
def isWinWS (c : Char) : Bool := c = ' ' || c = '\t'

/-- `ProcessImpl.__quoteCommand`: wrap the command in double quotes iff it contains
a space (`'\"%s\"' % input if ' ' in input else input`). -/
def quoteCommand (input : Str) : Str :=
  if ' ' ∈ input then '"' :: input ++ ['"'] else input

/-- The main loop of `ProcessImpl.__quoteArgument`: walks the argument keeping a
count `bs` of pending backslashes; a double quote flushes `2*bs+1` backslashes
(escaped run plus escaped quote), any other character flushes `bs` backslashes
unescaped.  Returns the emitted output together with the pending backslash count
left at the end of the input (the Python code flushes that count after the loop,
escaped or not depending on the `whitespace` flag). -/
def quoteArgBody : Str → Nat → Str × Nat
  | [], bs => ([], bs)
  | c :: cs, bs =>
    if c = '\\' then quoteArgBody cs (bs + 1)
    else if c = '"' then
      let r := quoteArgBody cs 0
      (List.replicate (2 * bs + 1) '\\' ++ '"' :: r.1, r.2)
    else
      let r := quoteArgBody cs 0
      (List.replicate bs '\\' ++ c :: r.1, r.2)

/-- The non-short-circuit tail of `ProcessImpl.__quoteArgument`: flush the loop
output; if the argument contains whitespace (`whitespace` flag), escape the
trailing backslash run and wrap everything in double quotes, else emit the
trailing run unescaped. -/
def quoteArgComplex (input : Str) (whitespace : Bool) : Str :=
  let r := quoteArgBody input 0
  if whitespace then '"' :: (r.1 ++ List.replicate (2 * r.2) '\\' ++ ['"'])
  else r.1 ++ List.replicate r.2 '\\'

/-- `ProcessImpl.__quoteArgument`.  Short-circuits: a quote-free argument without
whitespace is returned unchanged; a quote-free nonempty argument with whitespace
not ending in a backslash is just wrapped in double quotes.  Everything else goes
through the full algorithm (`quoteArgComplex`); note that on the fall-through
from the quote-free branch the Python `whitespace` flag is already `True`. -/
def quoteArgument (input : Str) : Str :=
  if '"' ∈ input then
    quoteArgComplex input (' ' ∈ input || '\t' ∈ input)
  else if ¬(input = [] ∨ ' ' ∈ input ∨ '\t' ∈ input) then input
  else if input ≠ [] ∧ input.getLast? ≠ some '\\' then '"' :: input ++ ['"']
  else quoteArgComplex input true

/-- Python `sep.join(parts)`. -/
def joinSep (sep : Str) : List Str → Str
  | [] => []
  | [x] => x
  | x :: xs => x ++ sep ++ joinSep sep xs

/-- `ProcessImpl.__buildCommandLine`: returns the quoted command (argv0) and the
full command line (quoted command and quoted arguments joined with spaces). -/
def buildCommandLine (command : Str) (args : List Str) : Str × Str :=
  let new_command := quoteCommand command
  (new_command, joinSep [' '] (new_command :: args.map quoteArgument))

/-! ### The standard Windows command-line parsing rules (spec side).

Modelled from the claim's statement of the standard rules implemented by
`CommandLineToArgvW`/`parse_cmdline`: `2n` backslashes before a double quote
yield `n` backslashes and a delimiter quote, `2n+1` yield `n` backslashes and a
literal quote, backslashes not before a quote are literal, and whitespace
outside quotes separates arguments. -/

/-- Parse a single argument.  `bs` counts the backslashes read so far, `q` says
whether we are inside delimiter quotes.  Returns the argument's value and the
unconsumed remainder (beginning with the separating whitespace, if any). -/
def winParseArg : Nat → Bool → Str → Str × Str
  | bs, _, [] => (List.replicate bs '\\', [])
  | bs, q, c :: cs =>
    if c = '\\' then winParseArg (bs + 1) q cs
    else if c = '"' then
      if bs % 2 = 1 then
        let r := winParseArg 0 q cs
        (List.replicate (bs / 2) '\\' ++ '"' :: r.1, r.2)
      else
        let r := winParseArg 0 (!q) cs
        (List.replicate (bs / 2) '\\' ++ r.1, r.2)
    else if isWinWS c && !q then
      (List.replicate bs '\\', c :: cs)
    else
      let r := winParseArg 0 q cs
      (List.replicate bs '\\' ++ c :: r.1, r.2)

/-- Split the argument part of a command line into arguments (fuel-bounded;
`fuel` bounds the number of arguments). -/
def winSplitArgs : Nat → Str → List Str
  | 0, _ => []
  | fuel + 1, cs =>
    let cs' := cs.dropWhile isWinWS
    if cs'.isEmpty then []
    else
      let r := winParseArg 0 false cs'
      r.1 :: winSplitArgs fuel r.2

/-- Parse the program name (argv0) of a command line: if it starts with a double
quote it extends to the next double quote with no backslash processing,
otherwise to the first whitespace. -/
def winParseCommand : Str → Str × Str
  | [] => ([], [])
  | c :: cs =>
    if c = '"' then
      (cs.takeWhile (fun d => !(d == '"')), (cs.dropWhile (fun d => !(d == '"'))).drop 1)
    else ((c :: cs).takeWhile (fun d => !isWinWS d), (c :: cs).dropWhile (fun d => !isWinWS d))

/-- Split a full Windows command line into the program name and the argument list. -/
def winSplitCommandLine (cl : Str) : Str × List Str :=
  let r := winParseCommand cl
  (r.1, winSplitArgs (r.2.length + 1) r.2)

/-- A terminator for a single argument inside a command line: end of input or a
separating space. -/
def IsTerm (rest : Str) : Prop := rest = [] ∨ ∃ r, rest = ' ' :: r

/-! ## Windows process lifecycle (`ProcessImpl.startBackgroundProcess`,
`_createParentJob`, `stop`, `setExitStatus`, `_pollWaitUnlessProcessTerminated`) -/

/-- The Win32 `JOB_OBJECT_LIMIT_KILL_ON_JOB_CLOSE` limit flag. -/
def JOB_OBJECT_LIMIT_KILL_ON_JOB_CLOSE : Nat := 0x2000

/-- A Win32 job object as configured by `_createParentJob` (its name and the
limit flags stored by `SetInformationJobObject`). -/
structure JobObject where
  name : Str
  limitFlags : Nat
deriving DecidableEq, Repr

/-- The Win32 API calls made by the process wrapper that the claims are about. -/
inductive WinApiCall where
  | createPipe
  | createFileHandle
  | createJobObject (name : Str) (limitFlags : Nat)
  | createProcess (commandLine : Str)
  | assignProcessToJobObject (job : JobObject)
  | terminateJobObject
  | terminateProcess
deriving DecidableEq, Repr

/-- `ProcessImpl._createParentJob`: creates an anonymous job object
(`job_name = ''`) and sets `JOB_OBJECT_LIMIT_KILL_ON_JOB_CLOSE` in its extended
limit information.  Returns the job and the API calls made. -/
def createParentJob : JobObject × List WinApiCall :=
  let job_name : Str := []
  ({ name := job_name, limitFlags := JOB_OBJECT_LIMIT_KILL_ON_JOB_CLOSE },
   [.createJobObject job_name JOB_OBJECT_LIMIT_KILL_ON_JOB_CLOSE])

/-- The per-process state fields of `ProcessImpl` relevant to stopping. -/
structure ProcState where
  job : Option JobObject
  hProcess : Bool
  exitStatus : Option Int
deriving DecidableEq, Repr

/-- Errors `startBackgroundProcess` can raise before returning. -/
inductive StartErr where
  | valueErrorCommandLineTooLong
  | processError
deriving DecidableEq, Repr

/-- `ProcessImpl.startBackgroundProcess` (happy-path OS semantics: handle
duplication and job assignment succeed; `createProcessFails` models
`win32process.CreateProcess` raising, which the code converts to
`ProcessError`).  Returns the resulting state and the trace of Win32 calls; on
an exception, the calls made before it. -/
def startBackgroundProcess (command : Str) (arguments : List Str)
    (disableKillingChildProcesses : Bool) (createProcessFails : Bool) :
    Except (StartErr × List WinApiCall) (ProcState × List WinApiCall) :=
  -- pipes for stdin and the stdout/stderr files are created first
  let pipeTrace : List WinApiCall := [.createPipe, .createFileHandle, .createFileHandle]
  let bc := buildCommandLine command arguments
  let command_line := bc.2
  -- Windows CreateProcess maximum lpCommandLine length is 32,768
  if command_line.length ≥ 32768 then
    .error (.valueErrorCommandLineTooLong, pipeTrace)
  else
    let jb := createParentJob
    let baseTrace := pipeTrace ++ jb.2 ++ [.createProcess command_line]
    if createProcessFails then
      .error (.processError, baseTrace)
    else if disableKillingChildProcesses then
      .ok ({ job := none, hProcess := true, exitStatus := none }, baseTrace)
    else
      .ok ({ job := some jb.1, hProcess := true, exitStatus := none },
           baseTrace ++ [.assignProcessToJobObject jb.1])

/-- `ProcessImpl.stop` (the Win32 calls made; happy-path OS semantics, i.e. the
terminate call itself does not raise): nothing if the process has already
exited, else terminate the job object if one is associated, else terminate the
single process. -/
def stop (st : ProcState) : List WinApiCall :=
  if st.exitStatus ≠ none then []
  else
    match st.job with
    | some _ => [.terminateJobObject]
    | none => [.terminateProcess]

/-- The owner (runner/test) flags consulted by `_pollWaitUnlessProcessTerminated`. -/
structure PollOwner where
  isCleanupInProgress : Bool
  isInterruptTerminationInProgressEvent : Bool
  isInterruptTerminationInProgress : Bool
deriving DecidableEq, Repr

/-- What a call to `_pollWaitUnlessProcessTerminated` did. -/
inductive PollOutcome where
  | returnedAfterWait
  | raisedKeyboardInterrupt
  | sleptFallback
deriving DecidableEq, Repr

/-- Result of `_pollWaitUnlessProcessTerminated`: the timeout passed to
`WaitForMultipleObjects` if it was invoked, and the outcome. -/
structure PollResult where
  waitTimeoutMillis : Option Nat
  outcome : PollOutcome
deriving DecidableEq, Repr

/-- `ProcessImpl._pollWaitUnlessProcessTerminated`: if a process handle exists,
block on `WaitForMultipleObjects` with `pollTimeoutMillis = 1000`; unless that
wait returns `WAIT_FAILED` (input `waitFailed`), raise `KeyboardInterrupt`
exactly when the owner's interrupt-termination flag is `True` and cleanup is not
in progress, else return.  With no handle (or a failed wait) fall back to the
plain `_pollWait` sleep. -/
def pollWaitUnlessProcessTerminated (hProcess : Bool) (owner : Option PollOwner)
    (waitFailed : Bool) : PollResult :=
  if hProcess then
    let pollTimeoutMillis : Nat := 1000
    if !waitFailed then
      { waitTimeoutMillis := some pollTimeoutMillis,
        outcome :=
          match owner with
          | some o =>
            if o.isInterruptTerminationInProgress && !o.isCleanupInProgress then
              .raisedKeyboardInterrupt
            else .returnedAfterWait
          | none => .returnedAfterWait }
    else
      { waitTimeoutMillis := some pollTimeoutMillis, outcome := .sleptFallback }
  else
    { waitTimeoutMillis := none, outcome := .sleptFallback }

/-- The trace of a `startBackgroundProcess` run, whether it raised or returned. -/
def startTrace (r : Except (StartErr × List WinApiCall) (ProcState × List WinApiCall)) :
    List WinApiCall :=
  match r with
  | .error e => e.2
  | .ok s => s.2

/-! ## Project property loading (`XMLProjectParser` in `pysys/xml/project.py`) -/

/-- The OS facilities and constants consulted while loading project properties
(`os.environ`, `os.path.isfile` plus `loadProperties`, `os.path.exists`,
`os.path.join`, `os.path.normpath`, the project directory and `OSFAMILY`). -/
structure OsEnv where
  envVars : List (Str × Str)
  /-- `some contents` iff `os.path.isfile` is true, in which case
  `loadProperties` yields `contents` (ordered key/value pairs). -/
  propsFile : Str → Option (List (Str × Str))
  pathExists : Str → Bool
  joinPath : Str → Str → Str
  normpath : Str → Str
  dirname : Str
  osfamily : Str

/-- A `<property>` element beneath the `<pysysproject>` root, by which of the
mutually exclusive attributes it carries (the cases of `getProperties`). -/
inductive PropertyNode where
  | environmentAttr (value : Str)
  | rootAttr (name : Str)
  | osfamilyAttr (name : Str)
  | fileAttr (file : Str) (defaultAttr : Option Str) (pathMustExist : Bool)
  | nameAttr (name : Str) (value : Str) (defaultAttr : Option Str) (pathMustExist : Bool)
  | noNameOrFile
deriving DecidableEq, Repr

/-- Parser state built up by `getProperties`: the `environment` prefix name and
the `self.properties` dictionary (an insertion-ordered map with unique keys). -/
structure ParserState where
  environment : Str
  properties : List (Str × Str)
deriving DecidableEq, Repr

/-- Dictionary lookup (`name in self.properties` / `self.properties[name]`). -/
def lookupProp (props : List (Str × Str)) (k : Str) : Option Str :=
  (props.find? (fun p => p.1 = k)).map (·.2)

/-- Dictionary update `self.properties[name] = value`: replace the existing
binding or append a new one. -/
def setProp (props : List (Str × Str)) (k v : Str) : List (Str × Str) :=
  if (props.find? (fun p => p.1 = k)).isSome then
    props.map (fun p => if p.1 = k then (k, v) else p)
  else props ++ [(k, v)]

/-- All exceptions raised on the `getProperties` paths are `UserError`s; this
type distinguishes the raise sites. -/
inductive UserError where
  | unknownEnvVar
  | undefinedProperty
  | duplicateProperty
  | pathMustExistFailed
  | missingPropertiesFile
  | noNameOrFile
deriving DecidableEq, Repr

/-- Substitution of one `${...}` variable (`expandProperty` inside
`expandProperties`): `${$}` is a literal dollar, an `env.`-prefixed name is an
environment variable (a missing one raises `UserError`), otherwise the name
must be a defined project property. -/
def substituteVar (env : OsEnv) (st : ParserState) (m : Str) : Except UserError Str :=
  if m = ['$'] then .ok ['$']
  else
    let envprefix := st.environment ++ ['.']
    if envprefix.isPrefixOf m then
      match lookupProp env.envVars (m.drop envprefix.length) with
      | some v => .ok v
      | none => .error .unknownEnvVar
    else
      match lookupProp st.properties m with
      | some v => .ok v
      | none => .error .undefinedProperty

/-- Split a character list at the first `'\x7d'`; `some (before, after)` if one
exists. -/
def splitAtBrace : Str → Option (Str × Str)
  | [] => none
  | c :: r =>
    if c = '}' then some ([], r)
    else (splitAtBrace r).map (fun p => (c :: p.1, p.2))

theorem splitAtBrace_length {l a b : Str} (h : splitAtBrace l = some (a, b)) :
    a.length + b.length + 1 = l.length := by
  induction l generalizing a b with
  | nil => simp [splitAtBrace] at h
  | cons c r ih =>
    by_cases hc : c = '}'
    · simp [splitAtBrace, hc] at h
      simp [← h.1, ← h.2]
    · simp only [splitAtBrace, hc, if_false, Option.map_eq_some'] at h
      obtain ⟨p, hp, hpe⟩ := h
      cases p with
      | mk p1 p2 =>
        cases hpe
        have := ih hp
        simp [List.length_cons]
        omega

/-- The scan performed by `re.sub(r'[$][{]([^}]+)[}]', expandProperty, value)`:
each `${name}` occurrence with a nonempty brace-free `name` is substituted
(replacements are not rescanned); unmatched text, including `${}` and an
unterminated `${`, is kept verbatim. -/
def expandChars (env : OsEnv) (st : ParserState) : Str → Except UserError Str
  | [] => .ok []
  | '$' :: '{' :: rest =>
    match hs : splitAtBrace rest with
    | some (inner, rest') =>
      if inner = [] then do
        let t ← expandChars env st ('{' :: rest)
        pure ('$' :: t)
      else do
        let sub ← substituteVar env st inner
        let t ← expandChars env st rest'
        pure (sub ++ t)
    | none => do
      let t ← expandChars env st ('{' :: rest)
      pure ('$' :: t)
  | c :: rest => do
    let t ← expandChars env st rest
    pure (c :: t)
termination_by l => l.length
decreasing_by
  · simp
  · have := splitAtBrace_length hs
    simp
    omega
  · simp
  · simp

/-- `XMLProjectParser.expandProperties(value, default)`: expand `value`; if that
raises `UserError` and a default is available, expand the default instead (with
no default the error propagates). -/
def expandProperties (env : OsEnv) (st : ParserState) (value : Str) (default : Option Str) :
    Except UserError Str :=
  match expandChars env st value with
  | .ok r => .ok r
  | .error e =>
    match default with
    | none => .error e
    | some d => expandChars env st d

/-- `XMLProjectParser.getPropertiesFromFile`: a missing file raises `UserError`
iff `pathMustExist`, otherwise it is skipped and the state is unchanged; an
existing file's entries are expanded (with default `''`) and written into the
dictionary, overwriting existing values (logged at INFO, not an error). -/
def getPropertiesFromFile (env : OsEnv) (st : ParserState) (file : Str)
    (pathMustExist : Bool) : Except UserError ParserState :=
  match env.propsFile file with
  | none =>
    if pathMustExist then .error .missingPropertiesFile
    else .ok st
  | some props =>
    props.foldlM
      (fun st kv => do
        let v ← expandProperties env st kv.2 (some [])
        pure { st with properties := setProp st.properties kv.1 v })
      st

/-- One iteration of the `getProperties` loop over `<property>` nodes. -/
def processPropertyNode (env : OsEnv) (st : ParserState) :
    PropertyNode → Except UserError ParserState
  | .environmentAttr v => .ok { st with environment := v }
  | .rootAttr n => .ok { st with properties := setProp st.properties n env.dirname }
  | .osfamilyAttr n => .ok { st with properties := setProp st.properties n env.osfamily }
  | .fileAttr fileAttrVal defAttr pme => do
    let file ← expandProperties env st fileAttrVal defAttr
    getPropertiesFromFile env st
      (if file = [] then [] else env.normpath (env.joinPath env.dirname file)) pme
  | .nameAttr name value defAttr pme => do
    let v ← expandProperties env st value defAttr
    if lookupProp st.properties name ≠ none then
      .error .duplicateProperty
    else
      let st' := { st with properties := setProp st.properties name v }
      if pme then
        if v ≠ [] ∧ env.pathExists (env.joinPath env.dirname v) then .ok st'
        else .error .pathMustExistFailed
      else .ok st'
  | .noNameOrFile => .error .noNameOrFile

/-- `XMLProjectParser.getProperties`: fold the node handler over the
`<property>` children of the project root. -/
def getProperties (env : OsEnv) (nodes : List PropertyNode) (st : ParserState) :
    Except UserError ParserState :=
  nodes.foldlM (processPropertyNode env) st

/-! ## Test output archiving (`TestOutputArchiveWriter` and
`CollectTestOutputWriter` in `pysys/writer/testoutput.py`) -/

/-- Archive formats supported by `TestOutputArchiveWriter.format`. -/
inductive ArchFormat where
  | zip
  | tarGz
  | tarXz
deriving DecidableEq, Repr

/-- Static configuration of a `TestOutputArchiveWriter` after `setup`: the byte
budgets (`int(maxTotalSizeMB*1024*1024)` and `int(maxArchiveSizeMB*1024*1024)`,
modelled directly in bytes), the archive cap, the compiled include/exclude
regexes (modelled as predicates on the slash-normalised path, `none` when the
project property is empty), and `rootlen`-style prefix stripping for member
names. -/
structure ArchiveConfig where
  maxTotalBytes : Int
  maxArchiveBytes : Int
  maxArchives : Int
  format : ArchFormat
  fileExcludesRegex : Option (Str → Bool)
  fileIncludesRegex : Option (Str → Bool)
  rootlen : Nat

/-- One output file seen by the `os.walk` loop of `_archiveTestOutputDir`: its
path, `os.path.getsize` result, the compressed size it would occupy in a zip,
and whether writing it into an archive raises (file locking and similar). -/
structure FileEntry where
  fn : Str
  size : Nat
  compressSize : Nat
  addFails : Bool

/-- Per-archive loop state of `_archiveTestOutputDir`: the remaining byte
budget for this archive, the `triedTmpZipFile` latch, the members added so far
(name and the size subtracted from the budget), `skippedFiles` and
`filesInZip`. -/
structure ZipState where
  bytesRemaining : Int
  triedTmpZipFile : Bool
  members : List (Str × Nat)
  skippedFiles : List Str
  filesInZip : Nat

/-- Append `f` to the real archive (the final `myzip.write`/`myzip.add` plus
the `filesInZip`/`bytesRemaining` bookkeeping; for a zip the compressed size is
subtracted, for a tar the uncompressed size). -/
def addMember (cfg : ArchiveConfig) (zs : ZipState) (f : FileEntry) : ZipState :=
  let memberName := f.fn.drop cfg.rootlen
  let recorded := if cfg.format = .zip then f.compressSize else f.size
  { zs with
    members := zs.members ++ [(memberName, recorded)],
    filesInZip := zs.filesInZip + 1,
    bytesRemaining := zs.bytesRemaining - recorded }

/-- The body of the `for f in files` loop of `_archiveTestOutputDir`: regex
exclusion/inclusion, empty files skipped silently, the `< 500` per-archive
budget check, the oversized-file handling with the temporary zip probe, and the
`except` handler that logs a warning, appends the file to `skippedFiles` and
continues (the probe's own write failure is caught by the same handler). -/
def addFileToArchive (cfg : ArchiveConfig) (zs : ZipState) (f : FileEntry) : ZipState :=
  if (match cfg.fileExcludesRegex with | some rx => rx f.fn | none => false) then
    { zs with skippedFiles := zs.skippedFiles ++ [f.fn] }
  else if (match cfg.fileIncludesRegex with | some rx => !rx f.fn | none => false) then
    { zs with skippedFiles := zs.skippedFiles ++ [f.fn] }
  else if f.size = 0 then zs
  else if zs.bytesRemaining < 500 then
    { zs with skippedFiles := zs.skippedFiles ++ [f.fn] }
  else if (f.size : Int) > zs.bytesRemaining then
    if zs.triedTmpZipFile ∨ cfg.format ≠ .zip then
      { zs with skippedFiles := zs.skippedFiles ++ [f.fn] }
    else
      let zs := { zs with triedTmpZipFile := true }
      if f.addFails then
        { zs with skippedFiles := zs.skippedFiles ++ [f.fn] }
      else if (f.compressSize : Int) > zs.bytesRemaining then
        { zs with skippedFiles := zs.skippedFiles ++ [f.fn] }
      else addMember cfg zs f
  else if f.addFails then
    { zs with skippedFiles := zs.skippedFiles ++ [f.fn] }
  else addMember cfg zs f

/-- Writer-level state of `TestOutputArchiveWriter` across a run. -/
structure ArchiveState where
  totalBytesRemaining : Int
  skippedTests : List Str
  archivesCreated : Int
  archives : List (Str × List (Str × Nat))

/-- Initial state set up by `TestOutputArchiveWriter.setup`. -/
def initArchiveState (cfg : ArchiveConfig) : ArchiveState :=
  { totalBytesRemaining := cfg.maxTotalBytes, skippedTests := [],
    archivesCreated := 0, archives := [] }

/-- The name of the archive member listing skipped files. -/
def skippedArchiveFilesMember : Str := "__pysys_skipped_archive_files.txt".toList

/-- One call to `_archiveTestOutputDir(id, outputDir)`: refuse (recording the
test in `skippedTests`) if `archivesCreated == maxArchives` or fewer than 500
bytes remain of the total budget; otherwise add the files, write the
skipped-files member when applicable, delete an empty archive (decrementing
`archivesCreated` again), and subtract the archive's on-disk size
(`zipFileSize`) from the total budget. -/
def archiveTestOutputDir (cfg : ArchiveConfig) (st : ArchiveState)
    (id outputDir : Str) (files : List FileEntry) (zipFileSize : Nat) : ArchiveState :=
  if st.archivesCreated = cfg.maxArchives then
    { st with skippedTests := st.skippedTests ++ [outputDir] }
  else if st.totalBytesRemaining < 500 then
    { st with skippedTests := st.skippedTests ++ [outputDir] }
  else
    let st := { st with archivesCreated := st.archivesCreated + 1 }
    let zs0 : ZipState :=
      { bytesRemaining := min cfg.maxArchiveBytes st.totalBytesRemaining,
        triedTmpZipFile := false, members := [], skippedFiles := [], filesInZip := 0 }
    let zs := files.foldl (addFileToArchive cfg) zs0
    let zs :=
      if zs.skippedFiles ≠ [] ∧ cfg.fileIncludesRegex.isNone then
        { zs with members := zs.members ++ [(skippedArchiveFilesMember, 0)] }
      else zs
    if zs.filesInZip = 0 then
      { st with archivesCreated := st.archivesCreated - 1 }
    else
      { st with
        totalBytesRemaining := st.totalBytesRemaining - zipFileSize,
        archives := st.archives ++ [(id, zs.members)] }

/-- One queued archiving instruction (test id, output dir, and the external
facts about its files and resulting archive size). -/
structure ArchiveCall where
  id : Str
  outputDir : Str
  files : List FileEntry
  zipFileSize : Nat

/-- A run of the archiver: the sequence of `_archiveTestOutputDir` calls made
either directly from `processResult` or from `cleanup` (for
`archiveAtEndOfRun` the same calls in the sha1-sorted order). -/
def runArchiver (cfg : ArchiveConfig) (calls : List ArchiveCall) (st : ArchiveState) :
    ArchiveState :=
  calls.foldl (fun st c => archiveTestOutputDir cfg st c.id c.outputDir c.files c.zipFileSize) st

/-- The `skipped_artifacts.txt` lines written by `TestOutputArchiveWriter.cleanup`
(`'\n'.join(os.path.normpath(t) ...)`): `some` lines iff any test was skipped. -/
def cleanupSkippedArtifacts (normpath : Str → Str) (st : ArchiveState) : Option (List Str) :=
  if st.skippedTests ≠ [] then some (st.skippedTests.map normpath) else none

/-- Outcome of `archive.write` for one file in
`CollectTestOutputWriter.archiveAndPublish`: success, a `PermissionError`
followed by a successful retry, or failure even after the retry. -/
inductive AddResult where
  | ok
  | permErrorThenOk
  | fails
deriving DecidableEq, Repr

/-- One file visited by the `os.walk` loop of `archiveAndPublish`: whether it
is the destination archive itself (skipped), its archive entry name
(`fn[rootlen:]` slash-normalised and `lstrip`ped), and what `archive.write`
does. -/
structure CollectFile where
  isDestArchive : Bool
  destname : Str
  addResult : AddResult

/-- One iteration of the `archiveAndPublish` loop: the destination archive is
skipped; a `PermissionError` is retried after a sleep; any other failure (or a
failed retry) is replaced by a `<destname>.pysyserror.txt` placeholder entry
and the loop continues. -/
def archiveAndPublishStep (members : List Str) (f : CollectFile) : List Str :=
  if f.isDestArchive then members
  else
    match f.addResult with
    | .ok => members ++ [f.destname]
    | .permErrorThenOk => members ++ [f.destname]
    | .fails => members ++ [f.destname ++ ".pysyserror.txt".toList]

/-- `CollectTestOutputWriter.archiveAndPublish`: the entries of the archive it
completes. -/
def archiveAndPublish (files : List CollectFile) : List Str :=
  files.foldl archiveAndPublishStep []

/-! ## Lock discipline of `ProcessImpl` (`self.__lock` versus the global
`process_lock`).

Each method of `pysys/process/plat-win32/helper.py` is transcribed as the
sequence of lock operations and shared-field accesses it performs (an access
appearing in any branch is included, so a trace covers every execution path's
accesses). -/

/-- The shared mutable fields of a `ProcessImpl` instance. -/
inductive SharedField where
  | pidField
  | tidField
  | exitStatusField
  | hProcessField
  | hThreadField
  | stdinField
  | jobField
deriving DecidableEq, Repr

/-- The two locks in play: the per-instance `self.__lock` and the global
`pysys.process_lock`. -/
inductive LockName where
  | instanceLock
  | processLock
deriving DecidableEq, Repr

/-- Events of a method transcription. -/
inductive MethodEvent where
  | acquire (l : LockName)
  | release (l : LockName)
  | readField (f : SharedField)
  | writeField (f : SharedField)
  | osCall
deriving DecidableEq, Repr

/-- The fields named by the claim: pid, exit status and the
process/thread/stdin handles. -/
def isClaimField : SharedField → Bool
  | .pidField => true
  | .exitStatusField => true
  | .hProcessField => true
  | .hThreadField => true
  | .stdinField => true
  | _ => false

/-- `true` iff every access (read or write) to a field satisfying `fieldOk`
happens while lock `l` is held (`held` is the incoming lock state). -/
def accessesUnderLock (l : LockName) (fieldOk : SharedField → Bool) :
    Bool → List MethodEvent → Bool
  | _, [] => true
  | held, .acquire l' :: es => accessesUnderLock l fieldOk (held || l' == l) es
  | held, .release l' :: es => accessesUnderLock l fieldOk (held && !(l' == l)) es
  | held, .readField f :: es => (!fieldOk f || held) && accessesUnderLock l fieldOk held es
  | held, .writeField f :: es => (!fieldOk f || held) && accessesUnderLock l fieldOk held es
  | held, .osCall :: es => accessesUnderLock l fieldOk held es

/-- `ProcessImpl._writeStdin`: the whole body runs under `with self.__lock`,
reading `self.__stdin` (the emptiness check and the `CloseHandle`/`WriteFile`
argument). -/
def traceWriteStdin : List MethodEvent :=
  [.acquire .instanceLock, .readField .stdinField, .readField .stdinField, .osCall,
   .release .instanceLock]

/-- `ProcessImpl.setExitStatus`: under `with self.__lock` it reads
`self.exitStatus`, polls `GetExitCodeProcess(self.__hProcess)`, closes and
clears the process/thread/stdin handles and stores the exit status. -/
def traceSetExitStatus : List MethodEvent :=
  [.acquire .instanceLock, .readField .exitStatusField, .readField .hProcessField, .osCall,
   .readField .hProcessField, .readField .hThreadField, .readField .stdinField, .osCall,
   .writeField .stdinField, .writeField .hThreadField, .writeField .hProcessField,
   .writeField .exitStatusField, .readField .exitStatusField, .release .instanceLock]

/-- `ProcessImpl.stop`: under `with self.__lock` it reads `self.exitStatus` and
`self.__job`, and (in the no-job branch) `self.__hProcess` for
`TerminateProcess`; the final `self.wait` call happens outside the lock but
performs no direct field access in this file. -/
def traceStop : List MethodEvent :=
  [.acquire .instanceLock, .readField .exitStatusField, .readField .jobField,
   .readField .hProcessField, .osCall, .release .instanceLock, .osCall]

/-- `ProcessImpl.startBackgroundProcess`: the whole body runs under
`with process_lock` (the global lock, not the per-instance one): it creates the
pipes, stores `self.__job`, assigns the `CreateProcess` results to
`self.__hProcess`, `self.__hThread`, `self.pid` and `self.__tid`, reads the job
and handles for `AssignProcessToJobObject`/`ResumeThread`, and finally stores
`self.__stdin`. -/
def traceStartBackgroundProcess : List MethodEvent :=
  [.acquire .processLock, .osCall, .osCall, .osCall, .writeField .jobField, .osCall,
   .writeField .hProcessField, .writeField .hThreadField, .writeField .pidField,
   .writeField .tidField, .readField .jobField, .readField .hProcessField,
   .readField .hThreadField, .osCall, .writeField .stdinField, .release .processLock]

/-- `ProcessImpl._pollWaitUnlessProcessTerminated`: reads `self.__hProcess`
with no lock held (`__hProcess = self.__hProcess  # read it atomically`), then
waits. -/
def tracePollWaitUnlessProcessTerminated : List MethodEvent :=
  [.readField .hProcessField, .osCall]

/-- All operations of the process wrapper that touch the shared fields. -/
def processImplMethodTraces : List (List MethodEvent) :=
  [traceWriteStdin, traceSetExitStatus, traceStop, traceStartBackgroundProcess,
   tracePollWaitUnlessProcessTerminated]

/-- The field accesses occurring in a trace. -/
def fieldAccesses (es : List MethodEvent) : List MethodEvent :=
  es.filter fun e =>
    match e with
    | .readField _ => true
    | .writeField _ => true
    | _ => false

/-! ## The JSON results writer (`JSONResultsWriter` in `pysys/writer/outcomes.py`) -/

/-- A test outcome constant (an entry of `pysys.constants.OUTCOMES`, which is
not part of the analysed sources): its display name (`str(outcome)`) and
`isFailure()`. -/
structure Outcome where
  displayName : Str
  isFailure : Bool
deriving DecidableEq, Repr

/-- A JSON-serialisable primitive appearing in a test result record. -/
inductive JPrim where
  | jstr (s : Str)
  | jint (n : Int)
deriving DecidableEq, Repr

/-- JSON values (numbers restricted to integers, which is all the writer
emits; test durations are modelled as integral seconds since floating point is
out of scope). -/
inductive JVal where
  | jstr (s : Str)
  | jint (n : Int)
  | jarr (xs : List JVal)
  | jobj (fields : List (Str × JVal))

def primJVal : JPrim → JVal
  | .jstr s => .jstr s
  | .jint n => .jint n

/-- A lowercase hex digit. -/
def hexDigitChar (d : Nat) : Char :=
  if d < 10 then Char.ofNat (48 + d) else Char.ofNat (87 + d)

/-- The escaping `json.dump` applies to one character of a string (modelling
`ensure_ascii=False` for non-ASCII text, which the containing claims do not
depend on): quote and backslash escapes, the short control escapes, and
`\u00XX` for the remaining control characters. -/
def escChar (c : Char) : Str :=
  if c = '"' then ['\\', '"']
  else if c = '\\' then ['\\', '\\']
  else if c = '\n' then ['\\', 'n']
  else if c = '\t' then ['\\', 't']
  else if c = '\r' then ['\\', 'r']
  else if c = '\x08' then ['\\', 'b']
  else if c = '\x0c' then ['\\', 'f']
  else if c.toNat < 32 then
    ['\\', 'u', '0', '0', hexDigitChar (c.toNat / 16), hexDigitChar (c.toNat % 16)]
  else [c]

def escStr (s : Str) : Str := (s.map escChar).flatten

/-- `json.dump` of a string. -/
def serStr (s : Str) : Str := '"' :: escStr s ++ ['"']

/-- Decimal digits of a natural number. -/
def serNat (n : Nat) : Str :=
  if n < 10 then [Char.ofNat (48 + n)]
  else serNat (n / 10) ++ [Char.ofNat (48 + n % 10)]
decreasing_by exact Nat.div_lt_self (by omega) (by omega)

/-- `json.dump` of an integer. -/
def serInt (i : Int) : Str :=
  if i < 0 then '-' :: serNat i.natAbs else serNat i.natAbs

def serPrim : JPrim → Str
  | .jstr s => serStr s
  | .jint n => serInt n

/-- `json.dump` of one dict entry (`"key": value`). -/
def memberStr (kv : Str × JPrim) : Str := serStr kv.1 ++ ':' :: ' ' :: serPrim kv.2

/-- `json.dump` of a flat dict with the default separators `', '` and `': '`. -/
def serRecord (kvs : List (Str × JPrim)) : Str :=
  '{' :: joinSep [',', ' '] (kvs.map memberStr) ++ ['}']

/-- `json.dump` of a dict of strings (the runner's `runDetails`). -/
def serStrObj (kvs : List (Str × Str)) : Str :=
  serRecord (kvs.map fun kv => (kv.1, JPrim.jstr kv.2))

/-- The fields of a test object and its result that
`JSONResultsWriter.createTestResultDict` reads.  String-typed values hold the
results of the external formatting calls (`time.strftime`, path
normalisation). -/
structure TestObjInfo where
  testId : Str
  outcomeDisplay : Str
  outcomeIsFailure : Bool
  outcomeReason : Str
  startTimeFmt : Str
  testTime : Int
  testDirRel : Str
  testFile : Str
  cycle : Nat
  outputDirOpt : Option Str
  title : Str

/-- `JSONResultsWriter.createTestResultDict`: the record dict, in insertion
order, with the conditional `cycle`, `outputDir` and `title` fields. -/
def createTestResultDict (includeTitle : Bool) (cycles : Nat) (t : TestObjInfo) :
    List (Str × JPrim) :=
  [("testId".toList, JPrim.jstr t.testId),
   ("outcome".toList, JPrim.jstr t.outcomeDisplay),
   ("outcomeReason".toList, JPrim.jstr t.outcomeReason),
   ("startTime".toList, JPrim.jstr t.startTimeFmt),
   ("durationSecs".toList, JPrim.jint t.testTime),
   ("testDir".toList, JPrim.jstr t.testDirRel),
   ("testFile".toList, JPrim.jstr t.testFile)]
  ++ (if cycles > 1 then [("cycle".toList, JPrim.jint ((t.cycle : Int) + 1))] else [])
  ++ (match t.outputDirOpt with
      | some d => [("outputDir".toList, JPrim.jstr d)]
      | none => [])
  ++ (if includeTitle then [("title".toList, JPrim.jstr t.title)] else [])

/-- Python `str.strip()` whitespace. -/
def isPyWS (c : Char) : Bool :=
  c = ' ' || c = '\t' || c = '\n' || c = '\r' || c = '\x0b' || c = '\x0c'

def pyStrip (s : Str) : Str := ((s.dropWhile isPyWS).reverse.dropWhile isPyWS).reverse

/-- The `setup` parsing of `includeNonFailureOutcomes`:
`[str(o) for o in OUTCOMES]` for `'*'`, else the stripped upper-cased nonempty
entries of the comma-separated list. -/
def parseIncludeNonFailureOutcomes (outcomes : List Outcome) (raw : Str) : List Str :=
  if raw = "*".toList then outcomes.map (·.displayName)
  else (raw.splitOn ',').filterMap fun o =>
    let s := pyStrip o
    if s = [] then none else some (s.map Char.toUpper)

/-- `setup` raises this `UserError` for an unknown display name. -/
inductive WriterError where
  | unknownOutcomeDisplayName
deriving DecidableEq, Repr

/-- Configuration of a `JSONResultsWriter` from the project file. -/
structure JSONWriterConfig where
  includeTitle : Bool
  includeNonFailureOutcomesRaw : Str

/-- Writer state between `setup` and `cleanup`: the logfile contents written so
far, `resultsWritten`, the parsed `includeNonFailureOutcomes` and the cycle
count. -/
structure JSONWriterState where
  fileContent : Str
  resultsWritten : Nat
  includeNonFailureOutcomes : List Str
  cycles : Nat

/-- What `setup` writes before any result:
`'\x7b"runDetails": ' + json.dump(runDetails) + ', "results":[\n'`. -/
def jsonHeader (runDetails : List (Str × Str)) : Str :=
  "\x7b\"runDetails\": ".toList ++ serStrObj runDetails ++ ", \"results\":[\n".toList

/-- What `cleanup` appends: `'\n]\x7d\n'`. -/
def jsonFooter : Str := "\n]\x7d\n".toList

/-- `JSONResultsWriter.setup`: parse and validate `includeNonFailureOutcomes`
against `OUTCOMES` (raising `UserError` on an unknown name), open the logfile
and write the header. -/
def jsonWriterSetup (outcomes : List Outcome) (cfg : JSONWriterConfig)
    (runDetails : List (Str × Str)) (cycles : Nat) : Except WriterError JSONWriterState :=
  let inc := parseIncludeNonFailureOutcomes outcomes cfg.includeNonFailureOutcomesRaw
  if inc.all (fun o => outcomes.any (fun oc => oc.displayName == o)) then
    .ok { fileContent := jsonHeader runDetails, resultsWritten := 0,
          includeNonFailureOutcomes := inc, cycles := cycles }
  else .error .unknownOutcomeDisplayName

/-- `JSONResultsWriter.processResult`: skip any result that is neither a
failure nor listed in `includeNonFailureOutcomes`; otherwise write a `',\n'`
separator after a previous record and append the `json.dump` of the record. -/
def jsonWriterProcessResult (includeTitle : Bool) (st : JSONWriterState) (t : TestObjInfo) :
    JSONWriterState :=
  if !(t.outcomeIsFailure || st.includeNonFailureOutcomes.contains t.outcomeDisplay) then st
  else
    let data := createTestResultDict includeTitle st.cycles t
    if data = [] then st
    else
      let pre := if st.resultsWritten > 0 then st.fileContent ++ [',', '\n'] else st.fileContent
      { st with fileContent := pre ++ serRecord data, resultsWritten := st.resultsWritten + 1 }

/-- A complete run of the writer (setup, a sequence of `processResult` calls,
cleanup): the final logfile contents, or the `setup` error. -/
def jsonWriterRunContent (outcomes : List Outcome) (cfg : JSONWriterConfig)
    (runDetails : List (Str × Str)) (cycles : Nat) (tests : List TestObjInfo) :
    Except WriterError Str :=
  (jsonWriterSetup outcomes cfg runDetails cycles).map fun st0 =>
    (tests.foldl (jsonWriterProcessResult cfg.includeTitle) st0).fileContent ++ jsonFooter

/-- Whether `processResult` records this result, given the parsed
`includeNonFailureOutcomes`. -/
def resultIncluded (inc : List Str) (t : TestObjInfo) : Bool :=
  t.outcomeIsFailure || inc.contains t.outcomeDisplay

/-- The JSON value the logfile is claimed to contain. -/
def expectedResultsJSON (runDetails : List (Str × Str))
    (records : List (List (Str × JPrim))) : JVal :=
  .jobj [("runDetails".toList, .jobj (runDetails.map fun kv => (kv.1, JVal.jstr kv.2))),
         ("results".toList, .jarr (records.map fun kvs =>
            JVal.jobj (kvs.map fun kv => (kv.1, primJVal kv.2))))]

/-! ### A JSON parser (UTF-8 text, integral numbers), used to state that the
logfile holds a single valid JSON document.  The grammar accepted is a strict
subset of JSON (RFC 8259): strings with the standard escapes and no raw control
characters, integers without leading zeros, arrays, objects, and the four
whitespace characters between tokens. -/

def isJsonWS (c : Char) : Bool := c = ' ' || c = '\t' || c = '\n' || c = '\r'

def skipJsonWS (s : Str) : Str := s.dropWhile isJsonWS

def hexVal (c : Char) : Option Nat :=
  if 48 ≤ c.toNat ∧ c.toNat ≤ 57 then some (c.toNat - 48)
  else if 97 ≤ c.toNat ∧ c.toNat ≤ 102 then some (c.toNat - 87)
  else if 65 ≤ c.toNat ∧ c.toNat ≤ 70 then some (c.toNat - 55)
  else none

/-- Parse the body of a JSON string after the opening quote, returning the
decoded characters and the input after the closing quote. -/
def parseStringBody : Str → Option (Str × Str)
  | [] => none
  | c :: r =>
    if c = '"' then some ([], r)
    else if c = '\\' then
      match r with
      | [] => none
      | e :: r2 =>
        if e = '"' then (parseStringBody r2).map (fun p => ('"' :: p.1, p.2))
        else if e = '\\' then (parseStringBody r2).map (fun p => ('\\' :: p.1, p.2))
        else if e = '/' then (parseStringBody r2).map (fun p => ('/' :: p.1, p.2))
        else if e = 'n' then (parseStringBody r2).map (fun p => ('\n' :: p.1, p.2))
        else if e = 't' then (parseStringBody r2).map (fun p => ('\t' :: p.1, p.2))
        else if e = 'r' then (parseStringBody r2).map (fun p => ('\r' :: p.1, p.2))
        else if e = 'b' then (parseStringBody r2).map (fun p => ('\x08' :: p.1, p.2))
        else if e = 'f' then (parseStringBody r2).map (fun p => ('\x0c' :: p.1, p.2))
        else if e = 'u' then
          match r2 with
          | h1 :: h2 :: h3 :: h4 :: r3 =>
            match hexVal h1, hexVal h2, hexVal h3, hexVal h4 with
            | some a, some b, some c2, some d =>
              let n := ((a * 16 + b) * 16 + c2) * 16 + d
              if n < 0xd800 then
                (parseStringBody r3).map (fun p => (Char.ofNat n :: p.1, p.2))
              else none
            | _, _, _, _ => none
          | _ => none
        else none
    else if c.toNat < 32 then none
    else (parseStringBody r).map (fun p => (c :: p.1, p.2))

def isDigit (c : Char) : Bool := 48 ≤ c.toNat && c.toNat ≤ 57

def parseDigits : Nat → Str → Nat × Str
  | acc, [] => (acc, [])
  | acc, c :: r => if isDigit c then parseDigits (acc * 10 + (c.toNat - 48)) r else (acc, c :: r)

def digitHead : Str → Bool
  | [] => false
  | c :: _ => isDigit c

/-- Parse a JSON integer (optional minus sign, no leading zeros). -/
def parseIntTok : Str → Option (Int × Str)
  | [] => none
  | c :: r =>
    if c = '-' then
      match r with
      | [] => none
      | d :: r2 =>
        if isDigit d then
          if d = '0' && digitHead r2 then none
          else
            let p := parseDigits (d.toNat - 48) r2
            some (-(p.1 : Int), p.2)
        else none
    else if isDigit c then
      if c = '0' && digitHead r then none
      else
        let p := parseDigits (c.toNat - 48) r
        some ((p.1 : Int), p.2)
    else none

mutual

/-- Parse a JSON value (leading whitespace allowed); `fuel` bounds the total
number of values and members parsed. -/
def parseVal : Nat → Str → Option (JVal × Str)
  | 0, _ => none
  | fuel + 1, cs =>
    match skipJsonWS cs with
    | [] => none
    | c :: r =>
      if c = '"' then (parseStringBody r).map (fun p => (JVal.jstr p.1, p.2))
      else if c = '[' then parseArrElems fuel (skipJsonWS r)
      else if c = '{' then parseObjElems fuel (skipJsonWS r)
      else (parseIntTok (c :: r)).map (fun p => (JVal.jint p.1, p.2))

/-- After `[` (whitespace skipped): an empty array or the first element and the
rest. -/
def parseArrElems : Nat → Str → Option (JVal × Str)
  | 0, _ => none
  | fuel + 1, cs =>
    match cs with
    | ']' :: r => some (.jarr [], r)
    | _ => do
      let p ← parseVal fuel cs
      let q ← parseArrRest fuel p.2
      pure (.jarr (p.1 :: q.1), q.2)

/-- After an array element: `]` ends the array, `,` precedes another element. -/
def parseArrRest : Nat → Str → Option (List JVal × Str)
  | 0, _ => none
  | fuel + 1, cs =>
    match skipJsonWS cs with
    | ']' :: r => some ([], r)
    | ',' :: r => do
      let p ← parseVal fuel r
      let q ← parseArrRest fuel p.2
      pure (p.1 :: q.1, q.2)
    | _ => none

/-- A `"key": value` object member (leading whitespace allowed). -/
def parseMember : Nat → Str → Option ((Str × JVal) × Str)
  | 0, _ => none
  | fuel + 1, cs =>
    match skipJsonWS cs with
    | '"' :: r => do
      let k ← parseStringBody r
      match skipJsonWS k.2 with
      | ':' :: r3 => do
        let v ← parseVal fuel r3
        pure ((k.1, v.1), v.2)
      | _ => none
    | _ => none

/-- After `{` (whitespace skipped): an empty object or the first member and the
rest. -/
def parseObjElems : Nat → Str → Option (JVal × Str)
  | 0, _ => none
  | fuel + 1, cs =>
    match cs with
    | '}' :: r => some (.jobj [], r)
    | _ => do
      let p ← parseMember fuel cs
      let q ← parseObjRest fuel p.2
      pure (.jobj (p.1 :: q.1), q.2)

/-- After an object member: `\x7d` ends the object, `,` precedes another member. -/
def parseObjRest : Nat → Str → Option (List (Str × JVal) × Str)
  | 0, _ => none
  | fuel + 1, cs =>
    match skipJsonWS cs with
    | '}' :: r => some ([], r)
    | ',' :: r => do
      let p ← parseMember fuel r
      let q ← parseObjRest fuel p.2
      pure (p.1 :: q.1, q.2)
    | _ => none

end

/-- Parse a complete JSON document: one value with only whitespace around it. -/
def parseJSON (cs : Str) : Option JVal :=
  match parseVal (cs.length + 1) cs with
  | some p => if skipJsonWS p.2 = [] then some p.1 else none
  | none => none

/-- The logfile text contributed by a sequence of `processResult` calls whose
serialized records are `rs`, given that `n` records were already written: the
`',\n'` separator precedes every record except a first one. -/
def glue (n : Nat) (rs : List Str) : Str :=
  if n = 0 then joinSep [',', '\n'] rs else (rs.map (fun r => ',' :: '\n' :: r)).flatten

/-- The serialized members of a flat dict after the first (each preceded by
`', '`). -/
def objTail (kvs : List (Str × JPrim)) : Str :=
  (kvs.map (fun kv => ',' :: ' ' :: memberStr kv)).flatten

/-- The serialized records of the results array after the first (each preceded
by the writer's `',\n'` separator). -/
def arrTail (rs : List (List (Str × JPrim))) : Str :=
  (rs.map (fun r => ',' :: '\n' :: serRecord r)).flatten

/-- The JSON value denoted by one record dict. -/
def recordJVal (kvs : List (Str × JPrim)) : JVal :=
  .jobj (kvs.map fun kv => (kv.1, primJVal kv.2))

/-! # Theorems -/

/-- Unfolding of the built command line. -/
theorem buildCommandLine_snd (command : Str) (args : List Str) :
    (buildCommandLine command args).2
      = joinSep [' '] (quoteCommand command :: args.map quoteArgument) := rfl

/-- Reduction of `Except` bind on a success (do-notation helper). -/
theorem exceptBind_ok {ε α β : Type} (a : α) (f : α → Except ε β) :
    (Except.ok a >>= f : Except ε β) = f a := rfl

/-- Reduction of `Except` bind on an error (do-notation helper). -/
theorem exceptBind_error {ε α β : Type} (e : ε) (f : α → Except ε β) :
    (Except.error e >>= f : Except ε β) = Except.error e := rfl

/-! ## C4: Windows argument quoting round-trips -/

/-- A run of backslashes feeds the parser's pending-backslash counter. -/
theorem winParseArg_replicate (k : Nat) :
    ∀ (bs : Nat) (q : Bool) (l : Str),
      winParseArg bs q (List.replicate k '\\' ++ l) = winParseArg (bs + k) q l := by
  induction k with
  | zero => intro bs q l; simp
  | succ k ih =>
    intro bs q l
    rw [List.replicate_succ, List.cons_append]
    have : winParseArg bs q ('\\' :: (List.replicate k '\\' ++ l))
        = winParseArg (bs + 1) q (List.replicate k '\\' ++ l) := by
      simp [winParseArg]
    rw [this, ih]
    congr 1
    omega

/-- Parsing an argument with no quotes and no whitespace consumes it verbatim
up to the terminator. -/
theorem winParseArg_plain :
    ∀ (s : Str) (bs : Nat) (rest : Str), '"' ∉ s → ' ' ∉ s → '\t' ∉ s → IsTerm rest →
      winParseArg bs false (s ++ rest) = (List.replicate bs '\\' ++ s, rest) := by
  intro s
  induction s with
  | nil =>
    intro bs rest _ _ _ hterm
    rcases hterm with rfl | ⟨r, rfl⟩
    · simp [winParseArg]
    · simp [winParseArg, isWinWS]
  | cons c cs ih =>
    intro bs rest hq hsp htab hterm
    simp only [List.mem_cons, not_or] at hq hsp htab
    have hq1 : ¬ c = '"' := fun h => hq.1 h.symm
    have hs1 : ¬ c = ' ' := fun h => hsp.1 h.symm
    have ht1 : ¬ c = '\t' := fun h => htab.1 h.symm
    by_cases hb : c = '\\'
    · subst hb
      rw [List.cons_append]
      have : winParseArg bs false ('\\' :: (cs ++ rest))
          = winParseArg (bs + 1) false (cs ++ rest) := by simp [winParseArg]
      rw [this, ih (bs + 1) rest hq.2 hsp.2 htab.2 hterm]
      rw [List.replicate_succ' bs]
      simp
    · rw [List.cons_append]
      have hws : isWinWS c = false := by simp [isWinWS, hs1, ht1]
      have : winParseArg bs false (c :: (cs ++ rest))
          = (List.replicate bs '\\' ++ c :: (winParseArg 0 false (cs ++ rest)).1,
             (winParseArg 0 false (cs ++ rest)).2) := by
        simp [winParseArg, hb, hq1, hws]
      rw [this, ih 0 rest hq.2 hsp.2 htab.2 hterm]
      simp

/-- Parsing inside delimiter quotes: a quote-free body not ending in a
backslash is consumed verbatim up to the closing quote. -/
theorem winParseArg_wrapped_plain :
    ∀ (s : Str) (bs : Nat) (rest : Str), '"' ∉ s → (s = [] → bs = 0) →
      s.getLast? ≠ some '\\' → IsTerm rest →
      winParseArg bs true (s ++ '"' :: rest) = (List.replicate bs '\\' ++ s, rest) := by
  intro s
  induction s with
  | nil =>
    intro bs rest _ hbs _ hterm
    rw [hbs rfl]
    rcases hterm with rfl | ⟨r, rfl⟩
    · simp [winParseArg]
    · simp [winParseArg, isWinWS]
  | cons c cs ih =>
    intro bs rest hq hbs hlast hterm
    simp only [List.mem_cons, not_or] at hq
    have hq1 : ¬ c = '"' := fun h => hq.1 h.symm
    by_cases hb : c = '\\'
    · subst hb
      cases cs with
      | nil => simp at hlast
      | cons x cs' =>
        rw [List.cons_append]
        have : winParseArg bs true ('\\' :: ((x :: cs') ++ '"' :: rest))
            = winParseArg (bs + 1) true ((x :: cs') ++ '"' :: rest) := by
          simp [winParseArg]
        rw [this, ih (bs + 1) rest hq.2 (by simp) (by rwa [List.getLast?_cons_cons] at hlast)
          hterm]
        rw [List.replicate_succ' bs]
        simp
    · rw [List.cons_append]
      have : winParseArg bs true (c :: (cs ++ '"' :: rest))
          = (List.replicate bs '\\' ++ c :: (winParseArg 0 true (cs ++ '"' :: rest)).1,
             (winParseArg 0 true (cs ++ '"' :: rest)).2) := by
        simp [winParseArg, hb, hq1]
      have hlast' : cs.getLast? ≠ some '\\' := by
        cases cs with
        | nil => simp
        | cons x cs' => rwa [List.getLast?_cons_cons] at hlast
      rw [this, ih 0 rest hq.2 (fun _ => rfl) hlast' hterm]
      simp

/-- The main-loop output of `__quoteArgument`, wrapped in quotes with the
trailing backslash run escaped, parses back to the original text. -/
theorem winParseArg_quoteArgBody_wrapped :
    ∀ (s : Str) (bs : Nat) (rest : Str), IsTerm rest →
      winParseArg 0 true
        ((quoteArgBody s bs).1 ++ List.replicate (2 * (quoteArgBody s bs).2) '\\'
          ++ '"' :: rest)
        = (List.replicate bs '\\' ++ s, rest) := by
  intro s
  induction s with
  | nil =>
    intro bs rest hterm
    simp only [quoteArgBody, List.nil_append]
    rw [winParseArg_replicate]
    have hmod : (0 + 2 * bs) % 2 = 0 := by omega
    have hdiv : (0 + 2 * bs) / 2 = bs := by omega
    rcases hterm with rfl | ⟨r, rfl⟩
    · simp [winParseArg, hmod, hdiv]
    · simp [winParseArg, hmod, hdiv, isWinWS]
  | cons c cs ih =>
    intro bs rest hterm
    by_cases hb : c = '\\'
    · subst hb
      have hq : quoteArgBody ('\\' :: cs) bs = quoteArgBody cs (bs + 1) := by
        simp [quoteArgBody]
      rw [hq, ih (bs + 1) rest hterm, List.replicate_succ' bs]
      simp
    · by_cases hc : c = '"'
      · subst hc
        have hq : quoteArgBody ('"' :: cs) bs
            = (List.replicate (2 * bs + 1) '\\' ++ '"' :: (quoteArgBody cs 0).1,
               (quoteArgBody cs 0).2) := by
          simp [quoteArgBody, hb]
        rw [hq]
        simp only [List.append_assoc, List.cons_append]
        rw [winParseArg_replicate]
        have hmod : (2 * bs + 1) % 2 = 1 := by omega
        have hdiv : (2 * bs + 1) / 2 = bs := by omega
        have ihc := ih 0 rest hterm
        simp only [List.replicate_zero, List.nil_append] at ihc
        simp [winParseArg, hmod, hdiv, ← List.append_assoc, ihc]
      · have hq : quoteArgBody (c :: cs) bs
            = (List.replicate bs '\\' ++ c :: (quoteArgBody cs 0).1,
               (quoteArgBody cs 0).2) := by
          simp [quoteArgBody, hb, hc]
        rw [hq]
        simp only [List.append_assoc, List.cons_append]
        rw [winParseArg_replicate]
        have ihc := ih 0 rest hterm
        simp only [List.replicate_zero, List.nil_append] at ihc
        simp [winParseArg, hb, hc, ← List.append_assoc, ihc]

/-- The main-loop output of `__quoteArgument` with the trailing backslash run
unescaped (the no-whitespace case) parses back to the original text outside
quotes. -/
theorem winParseArg_quoteArgBody_unwrapped :
    ∀ (s : Str) (bs : Nat) (rest : Str), ' ' ∉ s → '\t' ∉ s → IsTerm rest →
      winParseArg 0 false
        ((quoteArgBody s bs).1 ++ List.replicate (quoteArgBody s bs).2 '\\' ++ rest)
        = (List.replicate bs '\\' ++ s, rest) := by
  intro s
  induction s with
  | nil =>
    intro bs rest _ _ hterm
    simp only [quoteArgBody, List.nil_append]
    rw [winParseArg_replicate]
    rcases hterm with rfl | ⟨r, rfl⟩
    · simp [winParseArg]
    · simp [winParseArg, isWinWS]
  | cons c cs ih =>
    intro bs rest hsp htab hterm
    simp only [List.mem_cons, not_or] at hsp htab
    have hs1 : ¬ c = ' ' := fun h => hsp.1 h.symm
    have ht1 : ¬ c = '\t' := fun h => htab.1 h.symm
    by_cases hb : c = '\\'
    · subst hb
      have hq : quoteArgBody ('\\' :: cs) bs = quoteArgBody cs (bs + 1) := by
        simp [quoteArgBody]
      rw [hq, ih (bs + 1) rest hsp.2 htab.2 hterm, List.replicate_succ' bs]
      simp
    · by_cases hc : c = '"'
      · subst hc
        have hq : quoteArgBody ('"' :: cs) bs
            = (List.replicate (2 * bs + 1) '\\' ++ '"' :: (quoteArgBody cs 0).1,
               (quoteArgBody cs 0).2) := by
          simp [quoteArgBody, hb]
        rw [hq]
        simp only [List.append_assoc, List.cons_append]
        rw [winParseArg_replicate]
        have hmod : (2 * bs + 1) % 2 = 1 := by omega
        have hdiv : (2 * bs + 1) / 2 = bs := by omega
        have ihc := ih 0 rest hsp.2 htab.2 hterm
        simp only [List.replicate_zero, List.nil_append] at ihc
        simp [winParseArg, hmod, hdiv, ← List.append_assoc, ihc]
      · have hq : quoteArgBody (c :: cs) bs
            = (List.replicate bs '\\' ++ c :: (quoteArgBody cs 0).1,
               (quoteArgBody cs 0).2) := by
          simp [quoteArgBody, hb, hc]
        rw [hq]
        simp only [List.append_assoc, List.cons_append]
        rw [winParseArg_replicate]
        have hws : isWinWS c = false := by simp [isWinWS, hs1, ht1]
        have ihc := ih 0 rest hsp.2 htab.2 hterm
        simp only [List.replicate_zero, List.nil_append] at ihc
        simp [winParseArg, hb, hc, hws, ← List.append_assoc, ihc]

/-- If the argument contains a quote, the main-loop output is nonempty. -/
theorem quoteArgBody_fst_ne_nil :
    ∀ (s : Str) (bs : Nat), '"' ∈ s → (quoteArgBody s bs).1 ≠ [] := by
  intro s
  induction s with
  | nil => intro bs h; simp at h
  | cons c cs ih =>
    intro bs h
    by_cases hb : c = '\\'
    · subst hb
      have hcs : '"' ∈ cs := by
        rcases List.mem_cons.mp h with h1 | h1
        · exact absurd h1.symm (by decide)
        · exact h1
      have hq : quoteArgBody ('\\' :: cs) bs = quoteArgBody cs (bs + 1) := by
        simp [quoteArgBody]
      rw [hq]
      exact ih (bs + 1) hcs
    · by_cases hc : c = '"'
      · subst hc
        simp [quoteArgBody, hb]
      · simp [quoteArgBody, hb, hc]

/-- Every character of the main-loop output is a backslash, a quote, or a
character of the input. -/
theorem quoteArgBody_mem :
    ∀ (s : Str) (bs : Nat) (x : Char), x ∈ (quoteArgBody s bs).1 →
      x = '\\' ∨ x = '"' ∨ x ∈ s := by
  intro s
  induction s with
  | nil => intro bs x h; simp [quoteArgBody] at h
  | cons c cs ih =>
    intro bs x h
    by_cases hb : c = '\\'
    · subst hb
      rw [show quoteArgBody ('\\' :: cs) bs = quoteArgBody cs (bs + 1) by simp [quoteArgBody]]
        at h
      rcases ih (bs + 1) x h with h1 | h1 | h1
      · exact Or.inl h1
      · exact Or.inr (Or.inl h1)
      · exact Or.inr (Or.inr (List.mem_cons_of_mem _ h1))
    · by_cases hc : c = '"'
      · subst hc
        simp only [quoteArgBody, hb, if_false, if_true, reduceIte] at h
        simp only [List.mem_append, List.mem_replicate, List.mem_cons] at h
        rcases h with h1 | h1 | h1
        · exact Or.inl h1.2
        · exact Or.inr (Or.inl h1)
        · rcases ih 0 x h1 with h2 | h2 | h2
          · exact Or.inl h2
          · exact Or.inr (Or.inl h2)
          · exact Or.inr (Or.inr (List.mem_cons_of_mem _ h2))
      · simp only [quoteArgBody, hb, hc, if_false, reduceIte] at h
        simp only [List.mem_append, List.mem_replicate, List.mem_cons] at h
        rcases h with h1 | h1 | h1
        · exact Or.inl h1.2
        · exact Or.inr (Or.inr (by rw [h1]; exact List.mem_cons_self c cs))
        · rcases ih 0 x h1 with h2 | h2 | h2
          · exact Or.inl h2
          · exact Or.inr (Or.inl h2)
          · exact Or.inr (Or.inr (List.mem_cons_of_mem _ h2))

/-- A quoted argument is nonempty and never starts with whitespace. -/
theorem quoteArgument_head (s : Str) :
    ∃ c t, quoteArgument s = c :: t ∧ isWinWS c = false := by
  by_cases hq : '"' ∈ s
  · rw [show quoteArgument s = quoteArgComplex s (' ' ∈ s || '\t' ∈ s) by
      simp [quoteArgument, hq]]
    by_cases hws : (' ' ∈ s || '\t' ∈ s : Bool) = true
    · rw [hws]
      exact ⟨'"', _, rfl, rfl⟩
    · rw [Bool.not_eq_true] at hws
      rw [hws]
      unfold quoteArgComplex
      simp only [Bool.false_eq_true, if_false]
      have hne := quoteArgBody_fst_ne_nil s 0 hq
      obtain ⟨c, t, hct⟩ := List.exists_cons_of_ne_nil hne
      refine ⟨c, t ++ List.replicate (quoteArgBody s 0).2 '\\', by rw [hct]; simp, ?_⟩
      have hcmem : c ∈ (quoteArgBody s 0).1 := by rw [hct]; simp
      have hsp : ' ' ∉ s ∧ '\t' ∉ s := by
        constructor <;> intro hmem <;> simp [hmem] at hws
      rcases quoteArgBody_mem s 0 c hcmem with h1 | h1 | h1 <;>
        [skip; skip; refine ?_] <;> first
        | (subst h1; rfl)
        | (simp only [isWinWS, Bool.or_eq_false_iff]
           constructor <;> simp only [decide_eq_false_iff_not] <;> intro hc
           · exact hsp.1 (hc ▸ h1)
           · exact hsp.2 (hc ▸ h1))
  · by_cases h2 : s = [] ∨ ' ' ∈ s ∨ '\t' ∈ s
    · by_cases h3 : s ≠ [] ∧ s.getLast? ≠ some '\\'
      · rw [show quoteArgument s = '"' :: s ++ ['"'] by
          unfold quoteArgument; rw [if_neg hq, if_neg (not_not_intro h2), if_pos h3]]
        exact ⟨'"', s ++ ['"'], rfl, rfl⟩
      · rw [show quoteArgument s = quoteArgComplex s true by
          unfold quoteArgument; rw [if_neg hq, if_neg (not_not_intro h2), if_neg h3]]
        exact ⟨'"', _, rfl, rfl⟩
    · rw [show quoteArgument s = s by unfold quoteArgument; rw [if_neg hq, if_pos h2]]
      push_neg at h2
      obtain ⟨c, t, hct⟩ := List.exists_cons_of_ne_nil h2.1
      refine ⟨c, t, hct, ?_⟩
      have : c ∈ s := by rw [hct]; simp
      simp only [isWinWS, Bool.or_eq_false_iff]
      constructor <;> simp only [decide_eq_false_iff_not] <;> intro hc
      · exact h2.2.1 (hc ▸ this)
      · exact h2.2.2 (hc ▸ this)

/-- C4 core: for every argument, parsing `__quoteArgument`'s output under the
standard Windows rules recovers exactly the original string. -/
theorem winParseArg_quoteArgument (s : Str) :
    ∀ rest : Str, IsTerm rest →
      winParseArg 0 false (quoteArgument s ++ rest) = (s, rest) := by
  intro rest hterm
  by_cases hq : '"' ∈ s
  · rw [show quoteArgument s = quoteArgComplex s (' ' ∈ s || '\t' ∈ s) by
      simp [quoteArgument, hq]]
    by_cases hws : (' ' ∈ s || '\t' ∈ s : Bool) = true
    · rw [hws]
      unfold quoteArgComplex
      simp only [if_true, reduceIte]
      rw [List.cons_append]
      have hstep : winParseArg 0 false
          ('"' :: (((quoteArgBody s 0).1 ++ List.replicate (2 * (quoteArgBody s 0).2) '\\'
              ++ ['"']) ++ rest))
          = winParseArg 0 true ((quoteArgBody s 0).1
              ++ List.replicate (2 * (quoteArgBody s 0).2) '\\' ++ '"' :: rest) := by
        simp [winParseArg]
      rw [hstep, winParseArg_quoteArgBody_wrapped s 0 rest hterm]
      simp
    · rw [Bool.not_eq_true] at hws
      rw [hws]
      unfold quoteArgComplex
      simp only [Bool.false_eq_true, if_false]
      have hsp : ' ' ∉ s ∧ '\t' ∉ s := by
        constructor <;> intro hmem <;> simp [hmem] at hws
      have := winParseArg_quoteArgBody_unwrapped s 0 rest hsp.1 hsp.2 hterm
      simpa [List.append_assoc] using this
  · by_cases h2 : s = [] ∨ ' ' ∈ s ∨ '\t' ∈ s
    · by_cases h3 : s ≠ [] ∧ s.getLast? ≠ some '\\'
      · rw [show quoteArgument s = '"' :: s ++ ['"'] by
          unfold quoteArgument; rw [if_neg hq, if_neg (not_not_intro h2), if_pos h3]]
        simp only [List.cons_append, List.append_assoc, List.nil_append]
        have hstep : winParseArg 0 false ('"' :: (s ++ '"' :: rest))
            = winParseArg 0 true (s ++ '"' :: rest) := by
          simp [winParseArg]
        rw [hstep, winParseArg_wrapped_plain s 0 rest hq (fun h => absurd h h3.1) h3.2 hterm]
        simp
      · rw [show quoteArgument s = quoteArgComplex s true by
          unfold quoteArgument; rw [if_neg hq, if_neg (not_not_intro h2), if_neg h3]]
        unfold quoteArgComplex
        simp only [if_true, reduceIte]
        rw [List.cons_append]
        have hstep : winParseArg 0 false
            ('"' :: (((quoteArgBody s 0).1 ++ List.replicate (2 * (quoteArgBody s 0).2) '\\'
                ++ ['"']) ++ rest))
            = winParseArg 0 true ((quoteArgBody s 0).1
                ++ List.replicate (2 * (quoteArgBody s 0).2) '\\' ++ '"' :: rest) := by
          simp [winParseArg]
        rw [hstep, winParseArg_quoteArgBody_wrapped s 0 rest hterm]
        simp
    · rw [show quoteArgument s = s by unfold quoteArgument; rw [if_neg hq, if_pos h2]]
      push_neg at h2
      have := winParseArg_plain s 0 rest hq h2.2.1 h2.2.2 hterm
      simpa using this

/-- `takeWhile`/`dropWhile` split at the first element failing the predicate. -/
theorem takeWhile_append_stop {α : Type} (p : α → Bool) :
    ∀ (l : List α) (x : α) (r : List α), (∀ y ∈ l, p y = true) → p x = false →
      ((l ++ x :: r).takeWhile p = l ∧ (l ++ x :: r).dropWhile p = x :: r) := by
  intro l
  induction l with
  | nil =>
    intro x r _ hx
    simp [List.takeWhile_cons, List.dropWhile_cons, hx]
  | cons c cs ih =>
    intro x r hall hx
    have hc : p c = true := hall c (by simp)
    have := ih x r (fun y hy => hall y (by simp [hy])) hx
    simp [List.takeWhile_cons, List.dropWhile_cons, hc, this.1, this.2]

/-- `takeWhile`/`dropWhile` on a list all of whose elements pass. -/
theorem takeWhile_all {α : Type} (p : α → Bool) :
    ∀ l : List α, (∀ y ∈ l, p y = true) → (l.takeWhile p = l ∧ l.dropWhile p = []) := by
  intro l
  induction l with
  | nil => intro _; simp
  | cons c cs ih =>
    intro hall
    have hc : p c = true := hall c (by simp)
    have := ih (fun y hy => hall y (by simp [hy]))
    simp [List.takeWhile_cons, List.dropWhile_cons, hc, this.1, this.2]

/-- Parsing the program name off the front of a command line recovers the
command quoted by `__quoteCommand` (no quotes, no tabs, nonempty). -/
theorem winParseCommand_quoteCommand (cmd : Str) (hne : cmd ≠ []) (hq : '"' ∉ cmd)
    (htab : '\t' ∉ cmd) (tail : Str) (hterm : IsTerm tail) :
    winParseCommand (quoteCommand cmd ++ tail) = (cmd, tail) := by
  by_cases hsp : ' ' ∈ cmd
  · rw [show quoteCommand cmd = '"' :: cmd ++ ['"'] from by
      unfold quoteCommand; rw [if_pos hsp]]
    simp only [List.cons_append, List.append_assoc, List.nil_append]
    have hsplit := takeWhile_append_stop (fun d => !(d == '"')) cmd '"' tail
      (fun y hy => by
        simp only [Bool.not_eq_eq_eq_not, Bool.not_true, beq_eq_false_iff_ne, ne_eq]
        exact fun h => hq (h ▸ hy))
      (by simp)
    simp [winParseCommand, hsplit.1, hsplit.2]
  · rw [show quoteCommand cmd = cmd from by unfold quoteCommand; rw [if_neg hsp]]
    obtain ⟨c, cs, rfl⟩ := List.exists_cons_of_ne_nil hne
    have hc : ¬ c = '"' := fun h => hq (by simp [h])
    have hallp : ∀ y ∈ c :: cs, (!isWinWS y) = true := by
      intro y hy
      simp only [Bool.not_eq_eq_eq_not, Bool.not_true]
      simp only [isWinWS, Bool.or_eq_false_iff]
      constructor <;> simp only [decide_eq_false_iff_not] <;> intro h
      · exact hsp (h ▸ hy)
      · exact htab (h ▸ hy)
    rcases hterm with rfl | ⟨r, rfl⟩
    · have := takeWhile_all (fun d => !isWinWS d) (c :: cs) hallp
      simp [winParseCommand, hc, this.1, this.2]
    · have hsplit := takeWhile_append_stop (fun d => !isWinWS d) (c :: cs) ' ' r hallp
        (by simp [isWinWS])
      rw [show (c :: cs) ++ ' ' :: r = c :: (cs ++ ' ' :: r) from by simp]
      have h1 := hsplit.1
      have h2 := hsplit.2
      rw [List.cons_append] at h1 h2
      simp [winParseCommand, hc, h1, h2]

theorem winSplitArgs_nil (fuel : Nat) : winSplitArgs fuel [] = [] := by
  cases fuel <;> simp [winSplitArgs]

/-- Leading separator whitespace is skipped. -/
theorem winSplitArgs_cons_space (fuel : Nat) (l : Str) :
    winSplitArgs (fuel + 1) (' ' :: l) = winSplitArgs (fuel + 1) l := by
  simp [winSplitArgs, List.dropWhile_cons, isWinWS]

/-- One argument is split off the front of the remaining command line. -/
theorem winSplitArgs_step (fuel : Nat) (a tail : Str) (hterm : IsTerm tail) :
    winSplitArgs (fuel + 1) (quoteArgument a ++ tail) = a :: winSplitArgs fuel tail := by
  obtain ⟨c, t, hct, hws⟩ := quoteArgument_head a
  have harg := winParseArg_quoteArgument a tail hterm
  rw [hct] at harg ⊢
  rw [List.cons_append] at harg ⊢
  simp [winSplitArgs, List.dropWhile_cons, hws, harg]

/-- Splitting the space-joined quoted arguments recovers the argument list. -/
theorem winSplitArgs_join :
    ∀ (args : List Str) (fuel : Nat), args.length ≤ fuel →
      winSplitArgs fuel (joinSep [' '] (args.map quoteArgument)) = args := by
  intro args
  induction args with
  | nil => intro fuel _; cases fuel <;> simp [winSplitArgs, joinSep]
  | cons a args' ih =>
    intro fuel hf
    cases fuel with
    | zero => simp at hf
    | succ f =>
      cases args' with
      | nil =>
        rw [show joinSep [' '] ([a].map quoteArgument) = quoteArgument a ++ [] from by
          simp [joinSep]]
        rw [winSplitArgs_step f a [] (Or.inl rfl), winSplitArgs_nil]
      | cons b args'' =>
        rw [show joinSep [' '] ((a :: b :: args'').map quoteArgument)
            = quoteArgument a
              ++ (' ' :: joinSep [' '] ((b :: args'').map quoteArgument)) from by
          simp [joinSep]]
        rw [winSplitArgs_step f a _ (Or.inr ⟨_, rfl⟩)]
        congr 1
        cases f with
        | zero => simp at hf
        | succ f' =>
          rw [winSplitArgs_cons_space]
          exact ih (f' + 1) (by simpa using hf)

/-- The joined quoted arguments are at least as long as the argument list is
(minus the missing final separator). -/
theorem joinSep_quotes_length :
    ∀ args : List Str,
      args.length ≤ (joinSep [' '] (args.map quoteArgument)).length + 1 := by
  intro args
  induction args with
  | nil => simp [joinSep]
  | cons a args' ih =>
    cases args' with
    | nil => simp [joinSep]
    | cons b args'' =>
      rw [show joinSep [' '] ((a :: b :: args'').map quoteArgument)
          = quoteArgument a ++ (' ' :: joinSep [' '] ((b :: args'').map quoteArgument)) from by
        simp [joinSep]]
      simp only [List.length_cons, List.length_append] at ih ⊢
      omega

/-- C4: Windows argument quoting round-trips.  A nonempty argument with no
double quote, space or tab is returned unchanged by `__quoteArgument`; parsing
`__quoteArgument`'s output under the standard Windows command-line rules
recovers exactly the original string; and the command line built by
`__buildCommandLine` (for a command that keeps within `__quoteCommand`'s
documented limits: nonempty, no double quotes, no whitespace other than
spaces) parses back to the original argument list. -/
theorem quoteArgument_windows_roundtrip :
    (∀ s : Str, s ≠ [] → '"' ∉ s → ' ' ∉ s → '\t' ∉ s → quoteArgument s = s)
    ∧ (∀ (s rest : Str), IsTerm rest →
        winParseArg 0 false (quoteArgument s ++ rest) = (s, rest))
    ∧ (∀ (cmd : Str) (args : List Str), cmd ≠ [] → '"' ∉ cmd → '\t' ∉ cmd →
        winSplitCommandLine (buildCommandLine cmd args).2 = (cmd, args)) := by
  refine ⟨fun s h1 h2 h3 h4 => ?_, fun s rest hterm => winParseArg_quoteArgument s rest hterm,
    fun cmd args hne hq htab => ?_⟩
  · unfold quoteArgument
    rw [if_neg h2, if_pos (show ¬(s = [] ∨ ' ' ∈ s ∨ '\t' ∈ s) from by
      push_neg; exact ⟨h1, h3, h4⟩)]
  · cases args with
    | nil =>
      rw [buildCommandLine_snd]
      rw [show joinSep [' '] (quoteCommand cmd :: ([] : List Str).map quoteArgument)
          = quoteCommand cmd ++ [] from by simp [joinSep]]
      unfold winSplitCommandLine
      rw [winParseCommand_quoteCommand cmd hne hq htab [] (Or.inl rfl)]
      simp [winSplitArgs_nil]
    | cons b args' =>
      rw [buildCommandLine_snd]
      rw [show joinSep [' '] (quoteCommand cmd :: (b :: args').map quoteArgument)
          = quoteCommand cmd
            ++ (' ' :: joinSep [' '] ((b :: args').map quoteArgument)) from by
        simp [joinSep]]
      unfold winSplitCommandLine
      rw [winParseCommand_quoteCommand cmd hne hq htab _ (Or.inr ⟨_, rfl⟩)]
      simp only [List.length_cons]
      rw [winSplitArgs_cons_space]
      rw [winSplitArgs_join (b :: args') _
        (by have := joinSep_quotes_length (b :: args'); omega)]

/-- Witness for C4 at concrete inputs: a plain argument is unchanged, an
argument with quote, space and a trailing backslash round-trips, and a
command line with a spaced command and tricky arguments (including an empty
one) splits back to the original list. -/
theorem quoteArgument_windows_roundtrip_witness :
    quoteArgument ['a', 'b'] = ['a', 'b']
    ∧ winParseArg 0 false (quoteArgument ['a', ' ', '"', '\\'] ++ [])
        = (['a', ' ', '"', '\\'], [])
    ∧ winSplitCommandLine (buildCommandLine ['c', ' ', 'd'] [['x'], [' '], []]).2
        = (['c', ' ', 'd'], [['x'], [' '], []]) := by
  refine ⟨quoteArgument_windows_roundtrip.1 ['a', 'b'] (by decide) (by decide) (by decide)
    (by decide), quoteArgument_windows_roundtrip.2.1 ['a', ' ', '"', '\\'] [] (Or.inl rfl),
    quoteArgument_windows_roundtrip.2.2 ['c', ' ', 'd'] [['x'], [' '], []] (by decide)
      (by decide) (by decide)⟩

/-! ## C1: the JSON results writer emits one valid JSON document -/

/-- `Char.toNat` of `Char.ofNat` for code points below the surrogate range. -/
theorem charToNat_ofNat {n : Nat} (h : n < 0xd800) : (Char.ofNat n).toNat = n := by
  have hv : n.isValidChar := Or.inl h
  rw [Char.ofNat, dif_pos hv]
  rfl

/-- `hexVal` inverts `hexDigitChar`. -/
theorem hexVal_hexDigitChar (d : Nat) (h : d < 16) : hexVal (hexDigitChar d) = some d := by
  interval_cases d <;> decide

/-- Parser steps for each escape form (definitional). -/
theorem psb_close (r : Str) : parseStringBody ('"' :: r) = some ([], r) := by
  conv_lhs => rw [parseStringBody.eq_def]
  simp

theorem psb_esc_quote (x : Str) : parseStringBody ('\\' :: '"' :: x)
    = (parseStringBody x).map (fun p => ('"' :: p.1, p.2)) := by
  conv_lhs => rw [parseStringBody.eq_def]
  simp

theorem psb_esc_backslash (x : Str) : parseStringBody ('\\' :: '\\' :: x)
    = (parseStringBody x).map (fun p => ('\\' :: p.1, p.2)) := by
  conv_lhs => rw [parseStringBody.eq_def]
  simp

theorem psb_esc_n (x : Str) : parseStringBody ('\\' :: 'n' :: x)
    = (parseStringBody x).map (fun p => ('\n' :: p.1, p.2)) := by
  conv_lhs => rw [parseStringBody.eq_def]
  simp

theorem psb_esc_t (x : Str) : parseStringBody ('\\' :: 't' :: x)
    = (parseStringBody x).map (fun p => ('\t' :: p.1, p.2)) := by
  conv_lhs => rw [parseStringBody.eq_def]
  simp

theorem psb_esc_r (x : Str) : parseStringBody ('\\' :: 'r' :: x)
    = (parseStringBody x).map (fun p => ('\r' :: p.1, p.2)) := by
  conv_lhs => rw [parseStringBody.eq_def]
  simp

theorem psb_esc_b (x : Str) : parseStringBody ('\\' :: 'b' :: x)
    = (parseStringBody x).map (fun p => ('\x08' :: p.1, p.2)) := by
  conv_lhs => rw [parseStringBody.eq_def]
  simp

theorem psb_esc_f (x : Str) : parseStringBody ('\\' :: 'f' :: x)
    = (parseStringBody x).map (fun p => ('\x0c' :: p.1, p.2)) := by
  conv_lhs => rw [parseStringBody.eq_def]
  simp

/-- Parser step for a `\uXXXX` escape. -/
theorem psb_esc_u (e1 e2 e3 e4 : Char) (x : Str) (a b c2 d : Nat)
    (h1 : hexVal e1 = some a) (h2 : hexVal e2 = some b) (h3 : hexVal e3 = some c2)
    (h4 : hexVal e4 = some d) (hlt : ((a * 16 + b) * 16 + c2) * 16 + d < 0xd800) :
    parseStringBody ('\\' :: 'u' :: e1 :: e2 :: e3 :: e4 :: x)
      = (parseStringBody x).map
          (fun p => (Char.ofNat (((a * 16 + b) * 16 + c2) * 16 + d) :: p.1, p.2)) := by
  conv_lhs => rw [parseStringBody.eq_def]
  simp [h1, h2, h3, h4, hlt]

/-- Parser step for a literal (non-quote, non-backslash, non-control)
character. -/
theorem psb_lit (c : Char) (x : Str) (h1 : ¬ c = '"') (h2 : ¬ c = '\\')
    (h3 : ¬ c.toNat < 32) : parseStringBody (c :: x)
      = (parseStringBody x).map (fun p => (c :: p.1, p.2)) := by
  conv_lhs => rw [parseStringBody.eq_def]
  simp [h1, h2, h3]

/-- The string parser inverts `json.dump`'s escaping. -/
theorem parseStringBody_escStr :
    ∀ (s rest : Str), parseStringBody (escStr s ++ '"' :: rest) = some (s, rest) := by
  intro s
  induction s with
  | nil =>
    intro rest
    rw [show escStr [] = [] from rfl, List.nil_append, psb_close]
  | cons c cs ih =>
    intro rest
    rw [show escStr (c :: cs) = escChar c ++ escStr cs from by simp [escStr],
      List.append_assoc]
    by_cases h1 : c = '"'
    · subst h1
      rw [show escChar '"' = ['\\', '"'] from rfl, List.cons_append, List.cons_append,
        List.nil_append, psb_esc_quote, ih]
      rfl
    · by_cases h2 : c = '\\'
      · subst h2
        rw [show escChar '\\' = ['\\', '\\'] from rfl, List.cons_append, List.cons_append,
          List.nil_append, psb_esc_backslash, ih]
        rfl
      · by_cases h3 : c = '\n'
        · subst h3
          rw [show escChar '\n' = ['\\', 'n'] from rfl, List.cons_append, List.cons_append,
            List.nil_append, psb_esc_n, ih]
          rfl
        · by_cases h4 : c = '\t'
          · subst h4
            rw [show escChar '\t' = ['\\', 't'] from rfl, List.cons_append, List.cons_append,
              List.nil_append, psb_esc_t, ih]
            rfl
          · by_cases h5 : c = '\r'
            · subst h5
              rw [show escChar '\r' = ['\\', 'r'] from rfl, List.cons_append,
                List.cons_append, List.nil_append, psb_esc_r, ih]
              rfl
            · by_cases h6 : c = '\x08'
              · subst h6
                rw [show escChar '\x08' = ['\\', 'b'] from rfl, List.cons_append,
                  List.cons_append, List.nil_append, psb_esc_b, ih]
                rfl
              · by_cases h7 : c = '\x0c'
                · subst h7
                  rw [show escChar '\x0c' = ['\\', 'f'] from rfl, List.cons_append,
                    List.cons_append, List.nil_append, psb_esc_f, ih]
                  rfl
                · by_cases h8 : c.toNat < 32
                  · rw [show escChar c = ['\\', 'u', '0', '0',
                        hexDigitChar (c.toNat / 16), hexDigitChar (c.toNat % 16)] from by
                      unfold escChar
                      rw [if_neg h1, if_neg h2, if_neg h3, if_neg h4, if_neg h5, if_neg h6,
                        if_neg h7, if_pos h8]]
                    simp only [List.cons_append, List.nil_append]
                    rw [psb_esc_u '0' '0' (hexDigitChar (c.toNat / 16))
                      (hexDigitChar (c.toNat % 16)) _ 0 0 (c.toNat / 16) (c.toNat % 16)
                      rfl rfl (hexVal_hexDigitChar _ (by omega))
                      (hexVal_hexDigitChar _ (by omega)) (by omega), ih]
                    have hn : ((0 * 16 + 0) * 16 + c.toNat / 16) * 16 + c.toNat % 16
                        = c.toNat := by omega
                    rw [hn, Char.ofNat_toNat]
                    rfl
                  · rw [show escChar c = [c] from by
                      unfold escChar
                      rw [if_neg h1, if_neg h2, if_neg h3, if_neg h4, if_neg h5, if_neg h6,
                        if_neg h7, if_neg h8]]
                    rw [List.singleton_append, psb_lit c _ h1 h2 h8, ih]
                    rfl

/-- `parseDigits` stops at a non-digit. -/
theorem parseDigits_stop (acc : Nat) (rest : Str) (h : digitHead rest = false) :
    parseDigits acc rest = (acc, rest) := by
  cases rest with
  | nil => rfl
  | cons c r =>
    simp only [digitHead] at h
    simp [parseDigits, h]

/-- `serNat` starts with a digit, which is `'0'` only for zero itself. -/
theorem serNat_head : ∀ n : Nat, ∃ d ds, serNat n = d :: ds ∧ isDigit d = true
    ∧ (n = 0 ∨ ¬ d = '0') := by
  intro n
  induction n using Nat.strong_induction_on with
  | _ n ih =>
    by_cases h : n < 10
    · refine ⟨Char.ofNat (48 + n), [], by rw [serNat, if_pos h], ?_, ?_⟩
      · simp [isDigit, charToNat_ofNat (show 48 + n < 0xd800 by omega)]
        omega
      · by_cases hz : n = 0
        · exact Or.inl hz
        · refine Or.inr fun hd => ?_
          have := congrArg Char.toNat hd
          rw [charToNat_ofNat (show 48 + n < 0xd800 by omega)] at this
          simp at this
          omega
    · obtain ⟨d, ds, hd, hdig, hz⟩ := ih (n / 10) (by omega)
      refine ⟨d, ds ++ [Char.ofNat (48 + n % 10)], ?_, hdig, Or.inr ?_⟩
      · rw [serNat, if_neg h, hd]
        simp
      · rcases hz with hz | hz
        · omega
        · exact hz

/-- `parseDigits` over the decimal digits of `m` accumulates exactly `m`. -/
theorem parseDigits_serNat :
    ∀ (m acc : Nat) (rest : Str), ∃ k,
      parseDigits acc (serNat m ++ rest) = parseDigits (acc * 10 ^ k + m) rest := by
  intro m
  induction m using Nat.strong_induction_on with
  | _ m ih =>
    intro acc rest
    by_cases h : m < 10
    · refine ⟨1, ?_⟩
      rw [serNat, if_pos h]
      have hdig : isDigit (Char.ofNat (48 + m)) = true := by
        simp [isDigit, charToNat_ofNat (show 48 + m < 0xd800 by omega)]
        omega
      simp [parseDigits, hdig, charToNat_ofNat (show 48 + m < 0xd800 by omega)]
    · obtain ⟨k, hk⟩ := ih (m / 10) (by omega) acc (Char.ofNat (48 + m % 10) :: rest)
      refine ⟨k + 1, ?_⟩
      rw [serNat, if_neg h, List.append_assoc, List.singleton_append, hk]
      have hdig : isDigit (Char.ofNat (48 + m % 10)) = true := by
        simp [isDigit, charToNat_ofNat (show 48 + m % 10 < 0xd800 by omega)]
        omega
      simp only [parseDigits, hdig, if_true, reduceIte,
        charToNat_ofNat (show 48 + m % 10 < 0xd800 by omega)]
      congr 1
      have hm := Nat.div_add_mod m 10
      have hp : (10 : Nat) ^ (k + 1) = 10 ^ k * 10 := by ring
      rw [hp, ← Nat.mul_assoc]
      generalize acc * 10 ^ k = q
      omega

/-- The integer parser inverts `json.dump` of an integer (when not followed by
a digit). -/
theorem parseIntTok_serInt (n : Int) (rest : Str) (h : digitHead rest = false) :
    parseIntTok (serInt n ++ rest) = some (n, rest) := by
  obtain ⟨d, ds, hd, hdig, hz⟩ := serNat_head n.natAbs
  have hdigits : parseDigits (d.toNat - 48) (ds ++ rest) = (n.natAbs, rest) := by
    obtain ⟨k, hk⟩ := parseDigits_serNat n.natAbs 0 rest
    rw [hd] at hk
    simp only [List.cons_append] at hk
    rw [show parseDigits 0 (d :: (ds ++ rest))
        = parseDigits (0 * 10 + (d.toNat - 48)) (ds ++ rest) from by
      simp [parseDigits, hdig]] at hk
    rw [show (0 : Nat) * 10 + (d.toNat - 48) = d.toNat - 48 from by omega] at hk
    rw [hk, parseDigits_stop _ _ h]
    simp
  by_cases hneg : n < 0
  · rw [show serInt n = '-' :: serNat n.natAbs from by unfold serInt; rw [if_pos hneg]]
    rw [List.cons_append, hd, List.cons_append]
    have habs : ¬ n.natAbs = 0 := by omega
    have hd0 : (d = '0' && digitHead (ds ++ rest)) = false := by
      rcases hz with hz | hz
      · omega
      · simp [hz]
    simp only [parseIntTok, reduceIte, hdig, if_true, hd0, Bool.false_eq_true, if_false,
      hdigits]
    have : -(n.natAbs : Int) = n := by omega
    rw [this]
  · rw [show serInt n = serNat n.natAbs from by unfold serInt; rw [if_neg hneg]]
    rw [hd, List.cons_append]
    have hdne : ¬ d = '-' := by
      intro hdm
      rw [hdm] at hdig
      simp [isDigit] at hdig
    have hd0 : (d = '0' && digitHead (ds ++ rest)) = false := by
      by_cases hz0 : n.natAbs = 0
      · have h0 : serNat 0 = [Char.ofNat (48 + 0)] := by rw [serNat]; simp
        rw [hz0, h0] at hd
        injection hd with hd1 hd2
        rw [← hd2]
        simp [digitHead] at h ⊢
        simp [h]
      · have hdz : ¬ d = '0' := by
          rcases hz with hz | hz
          · exact absurd hz hz0
          · exact hz
        simp [hdz]
    simp only [parseIntTok, hdne, if_false, reduceIte, hdig, if_true, hd0,
      Bool.false_eq_true, hdigits]
    have hnn : ((n.natAbs : Int)) = n := by omega
    rw [hnn]

/-! Parser step equations (definitional reductions at concrete head characters)
and whitespace skipping. -/

theorem skipJsonWS_cons_not {c : Char} (l : Str) (h : isJsonWS c = false) :
    skipJsonWS (c :: l) = c :: l := by
  simp [skipJsonWS, List.dropWhile_cons, h]

theorem parseVal_quote (f : Nat) (X : Str) :
    parseVal (f + 1) ('"' :: X)
      = (parseStringBody X).map (fun p => (JVal.jstr p.1, p.2)) := rfl

theorem parseVal_brace (f : Nat) (X : Str) :
    parseVal (f + 1) ('{' :: X) = parseObjElems f (skipJsonWS X) := rfl

theorem parseVal_bracket (f : Nat) (X : Str) :
    parseVal (f + 1) ('[' :: X) = parseArrElems f (skipJsonWS X) := rfl

theorem parseVal_ws (f : Nat) {c : Char} (l : Str) (h : isJsonWS c = true) :
    parseVal (f + 1) (c :: l) = parseVal (f + 1) l := by
  simp only [parseVal]
  rw [show skipJsonWS (c :: l) = skipJsonWS l from by
    simp [skipJsonWS, List.dropWhile_cons, h]]

theorem parseVal_int_head (f : Nat) (c : Char) (l : Str) (hws : isJsonWS c = false)
    (h1 : ¬ c = '"') (h2 : ¬ c = '[') (h3 : ¬ c = '{') :
    parseVal (f + 1) (c :: l)
      = (parseIntTok (c :: l)).map (fun p => (JVal.jint p.1, p.2)) := by
  simp only [parseVal]
  rw [skipJsonWS_cons_not l hws]
  simp [h1, h2, h3]

theorem parseMember_quote (f : Nat) (X : Str) :
    parseMember (f + 1) ('"' :: X)
      = (parseStringBody X).bind (fun kk =>
          match skipJsonWS kk.2 with
          | ':' :: r3 => (parseVal f r3).bind (fun p => some ((kk.1, p.1), p.2))
          | _ => none) := rfl

theorem parseMember_ws (f : Nat) {c : Char} (l : Str) (h : isJsonWS c = true) :
    parseMember (f + 1) (c :: l) = parseMember (f + 1) l := by
  simp only [parseMember]
  rw [show skipJsonWS (c :: l) = skipJsonWS l from by
    simp [skipJsonWS, List.dropWhile_cons, h]]

theorem parseObjElems_brace (f : Nat) (X : Str) :
    parseObjElems (f + 1) ('}' :: X) = some (.jobj [], X) := rfl

theorem parseObjElems_quote (f : Nat) (X : Str) :
    parseObjElems (f + 1) ('"' :: X)
      = (parseMember f ('"' :: X)).bind (fun p =>
          (parseObjRest f p.2).bind (fun q => some (JVal.jobj (p.1 :: q.1), q.2))) := rfl

theorem parseObjRest_brace (f : Nat) (X : Str) :
    parseObjRest (f + 1) ('}' :: X) = some ([], X) := rfl

theorem parseObjRest_comma (f : Nat) (X : Str) :
    parseObjRest (f + 1) (',' :: X)
      = (parseMember f X).bind (fun p =>
          (parseObjRest f p.2).bind (fun q => some (p.1 :: q.1, q.2))) := rfl

theorem parseArrElems_bracket (f : Nat) (X : Str) :
    parseArrElems (f + 1) (']' :: X) = some (.jarr [], X) := rfl

theorem parseArrElems_record (f : Nat) (X : Str) :
    parseArrElems (f + 1) ('{' :: X)
      = (parseVal f ('{' :: X)).bind (fun p =>
          (parseArrRest f p.2).bind (fun q => some (JVal.jarr (p.1 :: q.1), q.2))) := rfl

theorem parseArrRest_bracket (f : Nat) (X : Str) :
    parseArrRest (f + 1) (']' :: X) = some ([], X) := rfl

theorem parseArrRest_comma (f : Nat) (X : Str) :
    parseArrRest (f + 1) (',' :: X)
      = (parseVal f X).bind (fun p =>
          (parseArrRest f p.2).bind (fun q => some (p.1 :: q.1, q.2))) := rfl

theorem parseArrRest_ws (f : Nat) {c : Char} (l : Str) (h : isJsonWS c = true) :
    parseArrRest (f + 1) (c :: l) = parseArrRest (f + 1) l := by
  simp only [parseArrRest]
  rw [show skipJsonWS (c :: l) = skipJsonWS l from by
    simp [skipJsonWS, List.dropWhile_cons, h]]

/-- A decimal digit is not JSON whitespace, a quote or an open bracket. -/
theorem digit_not_special {d : Char} (h : isDigit d = true) :
    isJsonWS d = false ∧ ¬ d = '"' ∧ ¬ d = '[' ∧ ¬ d = '{' := by
  simp only [isDigit, Bool.and_eq_true, decide_eq_true_eq] at h
  have hne : ∀ x : Char, x.toNat < 48 ∨ 57 < x.toNat → ¬ d = x := by
    intro x hx he
    rw [he] at h
    omega
  refine ⟨?_, hne '"' (by decide), hne '[' (by decide), hne '{' (by decide)⟩
  simp [isJsonWS, hne ' ' (by decide), hne '\t' (by decide), hne '\n' (by decide),
    hne '\r' (by decide)]

/-- The value parser inverts `json.dump` of a primitive. -/
theorem parseVal_serPrim (f : Nat) (v : JPrim) (rest : Str) (h : digitHead rest = false) :
    parseVal (f + 1) (serPrim v ++ rest) = some (primJVal v, rest) := by
  cases v with
  | jstr s =>
    rw [show serPrim (JPrim.jstr s) ++ rest = '"' :: (escStr s ++ '"' :: rest) from by
      simp [serPrim, serStr]]
    rw [parseVal_quote, parseStringBody_escStr]
    rfl
  | jint n =>
    obtain ⟨d, ds, hd, hdig, _⟩ := serNat_head n.natAbs
    by_cases hneg : n < 0
    · have hser : serInt n = '-' :: serNat n.natAbs := by unfold serInt; rw [if_pos hneg]
      rw [show serPrim (JPrim.jint n) = serInt n from rfl, hser, List.cons_append,
        parseVal_int_head f '-' _ (by decide) (by decide) (by decide) (by decide),
        ← List.cons_append, ← hser, parseIntTok_serInt n rest h]
      rfl
    · have hser : serInt n = serNat n.natAbs := by unfold serInt; rw [if_neg hneg]
      obtain ⟨hws, hq, hbr, hbc⟩ := digit_not_special hdig
      rw [show serPrim (JPrim.jint n) = serInt n from rfl, hser, hd, List.cons_append,
        parseVal_int_head f d _ hws hq hbr hbc, ← List.cons_append, ← hd, ← hser,
        parseIntTok_serInt n rest h]
      rfl

/-- The member parser inverts `json.dump` of one `"key": value` entry. -/
theorem parseMember_ser (f : Nat) (kv : Str × JPrim) (rest : Str)
    (h : digitHead rest = false) :
    parseMember (f + 2) (memberStr kv ++ rest) = some ((kv.1, primJVal kv.2), rest) := by
  rw [show memberStr kv ++ rest
      = '"' :: (escStr kv.1 ++ '"' :: (':' :: ' ' :: (serPrim kv.2 ++ rest))) from by
    simp [memberStr, serStr]]
  rw [show (f : Nat) + 2 = (f + 1) + 1 from rfl, parseMember_quote,
    parseStringBody_escStr]
  rw [Option.some_bind]
  rw [show skipJsonWS (':' :: ' ' :: (serPrim kv.2 ++ rest))
      = ':' :: ' ' :: (serPrim kv.2 ++ rest) from skipJsonWS_cons_not _ (by decide)]
  simp only []
  rw [show parseVal (f + 1) (' ' :: (serPrim kv.2 ++ rest))
      = parseVal (f + 1) (serPrim kv.2 ++ rest) from parseVal_ws f _ (by decide)]
  rw [parseVal_serPrim f kv.2 rest h, Option.some_bind]

theorem skipJsonWS_cons_ws {c : Char} (l : Str) (h : isJsonWS c = true) :
    skipJsonWS (c :: l) = skipJsonWS l := by
  simp [skipJsonWS, List.dropWhile_cons, h]

/-- `joinSep` of a mapped nonempty list as head plus separator-prefixed tail. -/
theorem joinSep_map_cons {α : Type} (sep : Str) (g : α → Str) :
    ∀ (x : α) (xs : List α), joinSep sep ((x :: xs).map g)
      = g x ++ (xs.map (fun y => sep ++ g y)).flatten := by
  intro x xs
  induction xs generalizing x with
  | nil => simp [joinSep]
  | cons y ys ih =>
    rw [List.map_cons, List.map_cons,
      show joinSep sep (g x :: g y :: ys.map g)
        = g x ++ sep ++ joinSep sep (g y :: ys.map g) from rfl,
      ← List.map_cons, ih y]
    simp [List.append_assoc]

theorem joinSep_memberStr (kv : Str × JPrim) (kvs : List (Str × JPrim)) :
    joinSep [',', ' '] ((kv :: kvs).map memberStr) = memberStr kv ++ objTail kvs := by
  rw [joinSep_map_cons]
  simp [objTail]

theorem joinSep_serRecord (r : List (Str × JPrim)) (rs : List (List (Str × JPrim))) :
    joinSep [',', '\n'] ((r :: rs).map serRecord) = serRecord r ++ arrTail rs := by
  rw [joinSep_map_cons]
  simp [arrTail]

theorem objTail_head_not_digit (kvs : List (Str × JPrim)) (rest : Str) :
    digitHead (objTail kvs ++ '}' :: rest) = false := by
  cases kvs with
  | nil => simp [objTail, digitHead, isDigit]
  | cons kv kvs' => simp [objTail, digitHead, isDigit]

theorem arrTail_head_not_digit (rs : List (List (Str × JPrim))) (rest : Str) :
    digitHead (arrTail rs ++ '\n' :: ']' :: rest) = false := by
  cases rs with
  | nil => simp [arrTail, digitHead, isDigit]
  | cons r rs' => simp [arrTail, digitHead, isDigit]

/-- The object-member loop inverts the `', '`-joined serialized members. -/
theorem parseObjRest_objTail :
    ∀ (kvs : List (Str × JPrim)) (fuel : Nat) (rest : Str), kvs.length + 2 ≤ fuel →
      parseObjRest fuel (objTail kvs ++ '}' :: rest)
        = some (kvs.map (fun kv => (kv.1, primJVal kv.2)), rest) := by
  intro kvs
  induction kvs with
  | nil =>
    intro fuel rest hf
    cases fuel with
    | zero => omega
    | succ f =>
      rw [show objTail [] = [] from rfl, List.nil_append, parseObjRest_brace]
      simp
  | cons kv kvs' ih =>
    intro fuel rest hf
    simp only [List.length_cons] at hf
    cases fuel with
    | zero => omega
    | succ f =>
      cases f with
      | zero => omega
      | succ f2 =>
        cases f2 with
        | zero => omega
        | succ f3 =>
          rw [show objTail (kv :: kvs') ++ '}' :: rest
              = ',' :: (' ' :: (memberStr kv ++ (objTail kvs' ++ '}' :: rest))) from by
            simp [objTail]]
          rw [parseObjRest_comma (f3 + 2)]
          rw [parseMember_ws (f3 + 1) _ (by decide)]
          rw [parseMember_ser f3 kv _ (objTail_head_not_digit kvs' rest)]
          rw [Option.some_bind]
          rw [ih (f3 + 2) rest (by omega)]
          rw [Option.some_bind]
          simp

/-- The value parser inverts `json.dump` of a flat record dict. -/
theorem parseVal_serRecord :
    ∀ (kvs : List (Str × JPrim)) (fuel : Nat) (rest : Str), kvs.length + 3 ≤ fuel →
      parseVal fuel (serRecord kvs ++ rest) = some (recordJVal kvs, rest) := by
  intro kvs fuel rest hf
  cases fuel with
  | zero => omega
  | succ f =>
    rw [show serRecord kvs ++ rest
        = '{' :: (joinSep [',', ' '] (kvs.map memberStr) ++ '}' :: rest) from by
      simp [serRecord]]
    rw [parseVal_brace]
    cases kvs with
    | nil =>
      rw [show joinSep [',', ' '] (([] : List (Str × JPrim)).map memberStr) = [] from rfl,
        List.nil_append, skipJsonWS_cons_not _ (by decide)]
      cases f with
      | zero => simp at hf
      | succ f2 =>
        rw [parseObjElems_brace]
        rfl
    | cons kv kvs' =>
      simp only [List.length_cons] at hf
      cases f with
      | zero => omega
      | succ f2 =>
        cases f2 with
        | zero => omega
        | succ f3 =>
          cases f3 with
          | zero => omega
          | succ f4 =>
            rw [joinSep_memberStr, List.append_assoc]
            have hm : memberStr kv ++ (objTail kvs' ++ '}' :: rest)
                = '"' :: (escStr kv.1
                    ++ '"' :: (':' :: ' ' :: (serPrim kv.2
                      ++ (objTail kvs' ++ '}' :: rest)))) := by
              simp [memberStr, serStr]
            rw [hm, skipJsonWS_cons_not _ (by decide), parseObjElems_quote (f4 + 2), ← hm]
            rw [parseMember_ser f4 kv _ (objTail_head_not_digit kvs' rest)]
            rw [Option.some_bind]
            rw [parseObjRest_objTail kvs' (f4 + 2) rest (by omega)]
            rw [Option.some_bind]
            simp [recordJVal]

/-- The array-element loop inverts the writer's `',\n'`-joined records. -/
theorem parseArrRest_arrTail :
    ∀ (rs : List (List (Str × JPrim))) (fuel : Nat) (rest : Str) (K : Nat), 3 ≤ K →
      (∀ r ∈ rs, r.length + 3 ≤ K) → rs.length + K ≤ fuel →
      parseArrRest fuel (arrTail rs ++ '\n' :: ']' :: rest)
        = some (rs.map recordJVal, rest) := by
  intro rs
  induction rs with
  | nil =>
    intro fuel rest K hK _ hf
    cases fuel with
    | zero => omega
    | succ f =>
      rw [show arrTail [] = [] from rfl, List.nil_append,
        parseArrRest_ws f _ (by decide), parseArrRest_bracket]
      simp
  | cons r rs' ih =>
    intro fuel rest K hK hrs hf
    simp only [List.length_cons] at hf
    cases fuel with
    | zero => omega
    | succ f =>
      cases f with
      | zero => omega
      | succ f2 =>
        rw [show arrTail (r :: rs') ++ '\n' :: ']' :: rest
            = ',' :: ('\n' :: (serRecord r ++ (arrTail rs' ++ '\n' :: ']' :: rest))) from by
          simp [arrTail]]
        rw [parseArrRest_comma (f2 + 1)]
        rw [parseVal_ws f2 _ (by decide)]
        rw [parseVal_serRecord r (f2 + 1) _ (by
          have := hrs r (by simp)
          omega)]
        rw [Option.some_bind]
        rw [ih (f2 + 1) rest K hK (fun x hx => hrs x (by simp [hx])) (by omega)]
        rw [Option.some_bind]
        simp

/-- The value parser inverts the writer's results array (a `[`, a newline, the
`',\n'`-joined records, a newline and `]`). -/
theorem parseVal_resultsArray :
    ∀ (rs : List (List (Str × JPrim))) (fuel : Nat) (rest : Str) (K : Nat), 3 ≤ K →
      (∀ r ∈ rs, r.length + 3 ≤ K) → rs.length + K + 2 ≤ fuel →
      parseVal fuel
        ('[' :: '\n' :: (joinSep [',', '\n'] (rs.map serRecord) ++ '\n' :: ']' :: rest))
        = some (JVal.jarr (rs.map recordJVal), rest) := by
  intro rs fuel rest K hK hrs hf
  cases fuel with
  | zero => omega
  | succ f =>
    rw [parseVal_bracket]
    rw [skipJsonWS_cons_ws _ (by decide)]
    cases rs with
    | nil =>
      rw [show joinSep [',', '\n'] (([] : List (List (Str × JPrim))).map serRecord)
          = [] from rfl, List.nil_append, skipJsonWS_cons_ws _ (by decide),
        skipJsonWS_cons_not _ (by decide)]
      cases f with
      | zero => omega
      | succ f2 =>
        rw [parseArrElems_bracket]
        simp
    | cons r rs' =>
      simp only [List.length_cons] at hf
      rw [joinSep_serRecord, List.append_assoc]
      have hr : serRecord r ++ (arrTail rs' ++ '\n' :: ']' :: rest)
          = '{' :: (joinSep [',', ' '] (r.map memberStr)
              ++ '}' :: (arrTail rs' ++ '\n' :: ']' :: rest)) := by
        simp [serRecord]
      rw [hr, skipJsonWS_cons_not _ (by decide)]
      cases f with
      | zero => omega
      | succ f2 =>
        rw [parseArrElems_record f2, ← hr]
        rw [parseVal_serRecord r f2 _ (by
          have := hrs r (by simp)
          omega)]
        rw [Option.some_bind]
        rw [parseArrRest_arrTail rs' f2 rest K hK (fun x hx => hrs x (by simp [hx]))
          (by omega)]
        rw [Option.some_bind]
        simp

theorem glue_zero (rs : List Str) : glue 0 rs = joinSep [',', '\n'] rs := by
  simp [glue]

theorem glue_succ (n : Nat) (rs : List Str) : glue (n + 1) rs = glue 1 rs := by
  simp [glue]

theorem glue_zero_cons (r : Str) (rs : List Str) : glue 0 (r :: rs) = r ++ glue 1 rs := by
  have h := joinSep_map_cons [',', '\n'] id r rs
  simp only [List.map_id, id_eq] at h
  simp [glue, h]

theorem glue_succ_cons (n : Nat) (r : Str) (rs : List Str) :
    glue (n + 1) (r :: rs) = ',' :: '\n' :: (r ++ glue 1 rs) := by
  simp [glue]

theorem createTestResultDict_ne_nil (it : Bool) (cy : Nat) (t : TestObjInfo) :
    createTestResultDict it cy t ≠ [] := by
  simp [createTestResultDict]

theorem createTestResultDict_length_le (it : Bool) (cy : Nat) (t : TestObjInfo) :
    (createTestResultDict it cy t).length ≤ 10 := by
  cases ho : t.outputDirOpt <;> simp [createTestResultDict, ho] <;> split_ifs <;> simp

/-- The effect of a sequence of `processResult` calls on the writer state: it
appends the serialized records of exactly the included results, in order, each
preceded by the `',\n'` separator unless it is the very first record written. -/
theorem jsonWriter_foldl (includeTitle : Bool) :
    ∀ (tests : List TestObjInfo) (st : JSONWriterState),
      tests.foldl (jsonWriterProcessResult includeTitle) st
        = { st with
            fileContent := st.fileContent ++ glue st.resultsWritten
              ((tests.filter (resultIncluded st.includeNonFailureOutcomes)).map
                (fun t => serRecord (createTestResultDict includeTitle st.cycles t))),
            resultsWritten := st.resultsWritten
              + (tests.filter (resultIncluded st.includeNonFailureOutcomes)).length } := by
  intro tests
  induction tests with
  | nil => intro st; simp [glue, joinSep]
  | cons t ts ih =>
    intro st
    rw [List.foldl_cons]
    by_cases hinc : resultIncluded st.includeNonFailureOutcomes t = true
    · have hinc' : (t.outcomeIsFailure
          || st.includeNonFailureOutcomes.contains t.outcomeDisplay) = true := hinc
      have hstep : jsonWriterProcessResult includeTitle st t
          = { st with
              fileContent := (if st.resultsWritten > 0
                  then st.fileContent ++ [',', '\n'] else st.fileContent)
                ++ serRecord (createTestResultDict includeTitle st.cycles t),
              resultsWritten := st.resultsWritten + 1 } := by
        simp [jsonWriterProcessResult, hinc', createTestResultDict_ne_nil]
        intro h1 h2
        rw [h1] at hinc'
        simp at hinc'
        exact absurd hinc' h2
      rw [hstep, ih,
        show (t :: ts).filter (resultIncluded st.includeNonFailureOutcomes)
          = t :: ts.filter (resultIncluded st.includeNonFailureOutcomes) from by
        simp [List.filter_cons, hinc]]
      dsimp only
      rw [List.map_cons, List.length_cons]
      simp only [JSONWriterState.mk.injEq]
      refine ⟨?_, ?_, trivial, trivial⟩
      · rcases Nat.eq_zero_or_pos st.resultsWritten with h0 | hpos
        · rw [h0, if_neg (by omega), glue_zero_cons]
          simp [List.append_assoc]
        · obtain ⟨k, hk⟩ : ∃ k, st.resultsWritten = k + 1 :=
            ⟨st.resultsWritten - 1, by omega⟩
          rw [hk, if_pos (by omega), glue_succ_cons, glue_succ]
          simp [List.append_assoc]
      · omega
    · have hinc0 : (t.outcomeIsFailure
          || st.includeNonFailureOutcomes.contains t.outcomeDisplay) = false :=
        Bool.eq_false_iff.mpr hinc
      have hstep : jsonWriterProcessResult includeTitle st t = st := by
        simp [jsonWriterProcessResult, hinc0]
        simp only [Bool.or_eq_false_iff] at hinc0
        intro h1 _
        have hmem : t.outcomeDisplay ∈ st.includeNonFailureOutcomes := h1 hinc0.1
        have : st.includeNonFailureOutcomes.contains t.outcomeDisplay = true := by
          simpa using hmem
        rw [this] at hinc0
        simp at hinc0
      rw [hstep, ih,
        show (t :: ts).filter (resultIncluded st.includeNonFailureOutcomes)
          = ts.filter (resultIncluded st.includeNonFailureOutcomes) from by
        simp [List.filter_cons, hinc]]

/-- Parsing the `"runDetails"` member of the logfile. -/
theorem parseMember_runDetails (rd : List (Str × Str)) (f : Nat) (rest : Str)
    (hrd : rd.length + 3 ≤ f + 1) :
    parseMember (f + 1 + 1)
        ('"' :: ("runDetails".toList ++ '"' :: ':' :: ' ' :: (serStrObj rd ++ rest)))
      = some (("runDetails".toList,
          JVal.jobj (rd.map fun kv => (kv.1, JVal.jstr kv.2))), rest) := by
  rw [parseMember_quote (f + 1)]
  rw [show ("runDetails".toList ++ '"' :: ':' :: ' ' :: (serStrObj rd ++ rest))
      = escStr "runDetails".toList ++ '"' :: (':' :: ' ' :: (serStrObj rd ++ rest)) from rfl]
  rw [parseStringBody_escStr]
  simp only [Option.some_bind]
  rw [show skipJsonWS (':' :: ' ' :: (serStrObj rd ++ rest))
      = ':' :: ' ' :: (serStrObj rd ++ rest) from skipJsonWS_cons_not _ (by decide)]
  simp only []
  rw [show parseVal (f + 1) (' ' :: (serStrObj rd ++ rest))
      = parseVal (f + 1) (serStrObj rd ++ rest) from parseVal_ws f _ (by decide)]
  rw [show serStrObj rd = serRecord (rd.map fun kv => (kv.1, JPrim.jstr kv.2)) from rfl]
  rw [parseVal_serRecord _ (f + 1) rest (by simpa using hrd)]
  simp only [Option.some_bind]
  simp [recordJVal, primJVal, List.map_map]

/-- Parsing the `"results"` member of the logfile. -/
theorem parseMember_results (recs : List (List (Str × JPrim))) (f : Nat) (rest : Str)
    (hlen : ∀ r ∈ recs, r.length ≤ 10) (hfr : recs.length + 15 ≤ f + 1) :
    parseMember (f + 1 + 1)
        ('"' :: ("results".toList ++ '"' :: ':'
          :: ('[' :: '\n' :: (joinSep [',', '\n'] (recs.map serRecord)
            ++ '\n' :: ']' :: rest))))
      = some (("results".toList, JVal.jarr (recs.map recordJVal)), rest) := by
  rw [parseMember_quote (f + 1)]
  rw [show ("results".toList ++ '"' :: ':'
        :: ('[' :: '\n' :: (joinSep [',', '\n'] (recs.map serRecord) ++ '\n' :: ']' :: rest)))
      = escStr "results".toList ++ '"' :: (':'
        :: ('[' :: '\n' :: (joinSep [',', '\n'] (recs.map serRecord) ++ '\n' :: ']' :: rest)))
      from rfl]
  rw [parseStringBody_escStr]
  simp only [Option.some_bind]
  rw [show skipJsonWS (':' :: ('[' :: '\n' :: (joinSep [',', '\n'] (recs.map serRecord)
        ++ '\n' :: ']' :: rest)))
      = ':' :: ('[' :: '\n' :: (joinSep [',', '\n'] (recs.map serRecord)
        ++ '\n' :: ']' :: rest)) from skipJsonWS_cons_not _ (by decide)]
  simp only []
  rw [parseVal_resultsArray recs (f + 1) rest 13 (by omega)
    (fun r hr => by have := hlen r hr; omega) (by omega)]
  simp only [Option.some_bind]

/-- Parsing a two-member JSON object whose members parse as given. -/
theorem parseObjElems_two (f : Nat) (k1 k2 m1 m2 : Str) (v1 v2 : JVal)
    (h1 : parseMember (f + 1 + 1) ('"' :: m1) = some ((k1, v1), ',' :: ' ' :: '"' :: m2))
    (h2 : parseMember (f + 1) ('"' :: m2) = some ((k2, v2), '}' :: '\n' :: [])) :
    parseObjElems (f + 1 + 1 + 1) ('"' :: m1)
      = some (JVal.jobj [(k1, v1), (k2, v2)], ['\n']) := by
  rw [parseObjElems_quote (f + 1 + 1), h1]
  simp only [Option.some_bind]
  rw [parseObjRest_comma (f + 1)]
  rw [parseMember_ws f _ (by decide)]
  rw [h2]
  simp only [Option.some_bind]
  rw [parseObjRest_brace f]
  simp only [Option.some_bind]

/-- The parser inverts the complete logfile text produced by a writer run. -/
theorem parseVal_writerContent (rd : List (Str × Str)) (recs : List (List (Str × JPrim)))
    (fuel : Nat) (hlen : ∀ r ∈ recs, r.length ≤ 10)
    (hf : rd.length + recs.length + 20 ≤ fuel) :
    parseVal fuel
        (jsonHeader rd ++ (joinSep [',', '\n'] (recs.map serRecord) ++ jsonFooter))
      = some (expectedResultsJSON rd recs, ['\n']) := by
  obtain ⟨f, rfl⟩ : ∃ g, fuel = g + 1 + 1 + 1 + 1 + 1 := ⟨fuel - 5, by omega⟩
  rw [show jsonHeader rd ++ (joinSep [',', '\n'] (recs.map serRecord) ++ jsonFooter)
      = '{' :: '"' :: ("runDetails".toList
          ++ '"' :: ':' :: ' ' :: (serStrObj rd
            ++ ',' :: ' ' :: '"' :: ("results".toList
              ++ '"' :: ':' :: ('[' :: '\n'
                :: (joinSep [',', '\n'] (recs.map serRecord)
                  ++ '\n' :: ']' :: ('}' :: '\n' :: [])))))) from by
    rw [show jsonHeader rd = "\x7b\"runDetails\": ".toList
        ++ (serStrObj rd ++ ", \"results\":[\n".toList) from by
      rw [jsonHeader, List.append_assoc]]
    rw [show jsonFooter = '\n' :: ']' :: ('}' :: '\n' :: []) from rfl]
    simp only [List.append_assoc]
    rfl]
  rw [parseVal_brace (f + 1 + 1 + 1 + 1)]
  rw [skipJsonWS_cons_not _ (by decide)]
  rw [parseObjElems_two (f + 1) _ _ _ _ _ _
    (parseMember_runDetails rd (f + 1) _ (by omega))
    (parseMember_results recs f _ hlen (by omega))]
  simp [expectedResultsJSON, recordJVal, primJVal, List.map_map]

theorem memberStr_length (kv : Str × JPrim) : 2 ≤ (memberStr kv).length := by
  simp [memberStr, serStr]
  omega

theorem joinSep_length_ge : ∀ (sep : Str) (rs : List Str), (∀ r ∈ rs, 2 ≤ r.length) →
    2 * rs.length ≤ (joinSep sep rs).length := by
  intro sep rs
  induction rs with
  | nil => simp [joinSep]
  | cons x xs ih =>
    intro h
    cases xs with
    | nil =>
      have := h x (by simp)
      simp [joinSep]
      omega
    | cons y ys =>
      have hx := h x (by simp)
      have hrec := ih (fun r hr => h r (by simp [hr]))
      rw [show joinSep sep (x :: y :: ys) = x ++ sep ++ joinSep sep (y :: ys) from rfl]
      simp only [List.length_append, List.length_cons] at hrec ⊢
      omega

theorem serRecord_length (kvs : List (Str × JPrim)) :
    2 + 2 * kvs.length ≤ (serRecord kvs).length := by
  have h := joinSep_length_ge [',', ' '] (kvs.map memberStr) (by
    intro r hr
    obtain ⟨kv, _, rfl⟩ := List.mem_map.mp hr
    exact memberStr_length kv)
  simp only [List.length_map] at h
  simp [serRecord]
  omega

/-- A lower bound on the logfile length, ensuring the parser's fuel
(`length + 1`) suffices. -/
theorem writerContent_length (rd : List (Str × Str)) (recs : List (List (Str × JPrim))) :
    rd.length + recs.length + 20
      ≤ (jsonHeader rd ++ (joinSep [',', '\n'] (recs.map serRecord) ++ jsonFooter)).length := by
  have hl1 : ("\x7b\"runDetails\": ".toList).length = 15 := rfl
  have hl2 : ((", \"results\":[\n").toList).length = 14 := rfl
  have hl3 : (jsonFooter).length = 4 := rfl
  have h1 := serRecord_length (rd.map fun kv => (kv.1, JPrim.jstr kv.2))
  simp only [List.length_map] at h1
  have h2 := joinSep_length_ge [',', '\n'] (recs.map serRecord) (by
    intro r hr
    obtain ⟨x, _, rfl⟩ := List.mem_map.mp hr
    have := serRecord_length x
    omega)
  simp only [List.length_map] at h2
  simp only [jsonHeader, serStrObj, List.length_append, hl1, hl2, hl3]
  omega

/-- C1: for every run of `JSONResultsWriter` consisting of a `setup` call, any
sequence of `processResult` calls and a final `cleanup` call, the logfile
contains a single valid JSON object with a `runDetails` field and a `results`
array holding exactly one record, in processing order, for each result whose
outcome is a failure or whose outcome display name is in
`includeNonFailureOutcomes`; results with other outcomes produce no record. -/
theorem jsonWriter_single_valid_json
    (outcomes : List Outcome) (cfg : JSONWriterConfig) (runDetails : List (Str × Str))
    (cycles : Nat) (tests : List TestObjInfo) (st0 : JSONWriterState)
    (hsetup : jsonWriterSetup outcomes cfg runDetails cycles = .ok st0) :
    jsonWriterRunContent outcomes cfg runDetails cycles tests
      = .ok ((tests.foldl (jsonWriterProcessResult cfg.includeTitle) st0).fileContent
          ++ jsonFooter)
    ∧ parseJSON
        ((tests.foldl (jsonWriterProcessResult cfg.includeTitle) st0).fileContent
          ++ jsonFooter)
      = some (expectedResultsJSON runDetails
          ((tests.filter (resultIncluded st0.includeNonFailureOutcomes)).map
            (createTestResultDict cfg.includeTitle cycles))) := by
  have hfields : st0.fileContent = jsonHeader runDetails ∧ st0.resultsWritten = 0
      ∧ st0.cycles = cycles := by
    unfold jsonWriterSetup at hsetup
    simp only [] at hsetup
    split at hsetup
    · injection hsetup with h
      rw [← h]
      exact ⟨rfl, rfl, rfl⟩
    · cases hsetup
  obtain ⟨hfc, hrw0, hcy⟩ := hfields
  constructor
  · unfold jsonWriterRunContent
    rw [hsetup]
    rfl
  · rw [jsonWriter_foldl cfg.includeTitle tests st0]
    dsimp only
    rw [hfc, hrw0, hcy, glue_zero]
    rw [show (tests.filter (resultIncluded st0.includeNonFailureOutcomes)).map
          (fun t => serRecord (createTestResultDict cfg.includeTitle cycles t))
        = ((tests.filter (resultIncluded st0.includeNonFailureOutcomes)).map
            (createTestResultDict cfg.includeTitle cycles)).map serRecord from by
      simp [List.map_map]]
    rw [List.append_assoc]
    unfold parseJSON
    rw [parseVal_writerContent runDetails
      ((tests.filter (resultIncluded st0.includeNonFailureOutcomes)).map
        (createTestResultDict cfg.includeTitle cycles)) _
      (by
        intro r hr
        obtain ⟨t, _, rfl⟩ := List.mem_map.mp hr
        exact createTestResultDict_length_le _ _ _)
      (by
        have := writerContent_length runDetails
          ((tests.filter (resultIncluded st0.includeNonFailureOutcomes)).map
            (createTestResultDict cfg.includeTitle cycles))
        omega)]
    simp
    decide

/-- Witness for C1 at a concrete run: empty `includeNonFailureOutcomes`, one
failing test. -/
theorem jsonWriter_single_valid_json_witness :
    jsonWriterSetup [] ⟨false, []⟩ [] 1 = .ok ⟨jsonHeader [], 0, [], 1⟩
    ∧ (jsonWriterRunContent [] ⟨false, []⟩ [] 1
          [⟨[], [], true, [], [], 0, [], [], 0, none, []⟩]
        = .ok (([(⟨[], [], true, [], [], 0, [], [], 0, none, []⟩ : TestObjInfo)].foldl
            (jsonWriterProcessResult false) ⟨jsonHeader [], 0, [], 1⟩).fileContent
          ++ jsonFooter)
      ∧ parseJSON (([(⟨[], [], true, [], [], 0, [], [], 0, none, []⟩ : TestObjInfo)].foldl
            (jsonWriterProcessResult false) ⟨jsonHeader [], 0, [], 1⟩).fileContent
          ++ jsonFooter)
        = some (expectedResultsJSON []
            (([(⟨[], [], true, [], [], 0, [], [], 0, none, []⟩ : TestObjInfo)].filter
              (resultIncluded ([] : List Str))).map (createTestResultDict false 1)))) :=
  ⟨rfl, jsonWriter_single_valid_json [] ⟨false, []⟩ [] 1
    [⟨[], [], true, [], [], 0, [], [], 0, none, []⟩] ⟨jsonHeader [], 0, [], 1⟩ rfl⟩

/-! ## C9: poll wait semantics -/

/-- C9: whenever a process handle exists, `_pollWaitUnlessProcessTerminated`
blocks on the OS wait primitive with a timeout of at most 1000 milliseconds,
and if that wait does not fail it raises `KeyboardInterrupt` exactly when the
owner's interrupt-termination flag is set and cleanup is not in progress; when
no process handle exists it falls back to a plain sleep. -/
theorem pollWait_bounded_and_cooperative :
    (∀ (owner : Option PollOwner) (waitFailed : Bool),
      ∃ t, (pollWaitUnlessProcessTerminated true owner waitFailed).waitTimeoutMillis = some t
        ∧ t ≤ 1000)
    ∧ (∀ owner : Option PollOwner,
        ((pollWaitUnlessProcessTerminated true owner false).outcome
            = PollOutcome.raisedKeyboardInterrupt ↔
          ∃ o, owner = some o ∧ o.isInterruptTerminationInProgress = true
            ∧ o.isCleanupInProgress = false))
    ∧ (∀ (owner : Option PollOwner) (waitFailed : Bool),
        pollWaitUnlessProcessTerminated false owner waitFailed
          = { waitTimeoutMillis := none, outcome := .sleptFallback }) := by
  refine ⟨fun owner waitFailed => ⟨1000, ?_, le_refl _⟩, fun owner => ?_, fun _ _ => rfl⟩
  · cases waitFailed <;> rfl
  · cases owner with
    | none => simp [pollWaitUnlessProcessTerminated]
    | some o =>
      rcases o with ⟨c, e, i⟩
      cases c <;> cases i <;> simp [pollWaitUnlessProcessTerminated]

/-! ## C10: command-line length guard -/

/-- C10: `startBackgroundProcess` raises `ValueError` before any process is
created whenever the built command line is 32768 characters or longer; for
shorter command lines the length error is never raised and process creation is
attempted. -/
theorem startBackgroundProcess_commandLine_length (command : Str) (args : List Str)
    (dk cpf : Bool) :
    (32768 ≤ (buildCommandLine command args).2.length →
      startBackgroundProcess command args dk cpf =
        .error (.valueErrorCommandLineTooLong, [.createPipe, .createFileHandle, .createFileHandle])
      ∧ ∀ cl, WinApiCall.createProcess cl ∉
          startTrace (startBackgroundProcess command args dk cpf))
    ∧ ((buildCommandLine command args).2.length < 32768 →
      (∀ tr, startBackgroundProcess command args dk cpf
          ≠ .error (.valueErrorCommandLineTooLong, tr))
      ∧ WinApiCall.createProcess (buildCommandLine command args).2 ∈
          startTrace (startBackgroundProcess command args dk cpf)) := by
  constructor
  · intro h
    have : startBackgroundProcess command args dk cpf =
        .error (.valueErrorCommandLineTooLong,
          [.createPipe, .createFileHandle, .createFileHandle]) := by
      unfold startBackgroundProcess
      simp [h]
    refine ⟨this, fun cl => ?_⟩
    rw [this]
    simp [startTrace]
  · intro h
    unfold startBackgroundProcess
    have h' : ¬ 32768 ≤ (buildCommandLine command args).2.length := by omega
    cases cpf <;> cases dk <;> simp [h', startTrace]

/-- Witness for C10 at concrete inputs: a one-character command line is below
the limit and reaches process creation; a 40000-character argument triggers the
`ValueError` with no `CreateProcess` call. -/
theorem startBackgroundProcess_commandLine_length_witness :
    (∀ tr, startBackgroundProcess ['c'] [] false false
        ≠ .error (.valueErrorCommandLineTooLong, tr))
    ∧ startBackgroundProcess (List.replicate 40000 'a') [] false false =
        .error (.valueErrorCommandLineTooLong,
          [.createPipe, .createFileHandle, .createFileHandle]) := by
  have h1 : ' ' ∉ List.replicate 40000 'a' := by
    rw [List.mem_replicate]
    rintro ⟨-, h⟩
    exact absurd h (by decide)
  have h2 : quoteCommand (List.replicate 40000 'a') = List.replicate 40000 'a' := by
    unfold quoteCommand
    rw [if_neg h1]
  have hbig : (buildCommandLine (List.replicate 40000 'a') []).2 = List.replicate 40000 'a' := by
    rw [buildCommandLine_snd, List.map_nil, h2]
    rfl
  constructor
  · exact ((startBackgroundProcess_commandLine_length ['c'] [] false false).2 (by decide)).1
  · refine ((startBackgroundProcess_commandLine_length (List.replicate 40000 'a') [] false
      false).1 ?_).1
    rw [hbig, List.length_replicate]
    omega

/-! ## C3: job-object semantics -/

/-- C3: with killing of child processes enabled, `startBackgroundProcess`
assigns the new process to a freshly created anonymous job object configured
with `JOB_OBJECT_LIMIT_KILL_ON_JOB_CLOSE`; `stop` on a process whose
`exitStatus` is still `None` terminates that job object, and `TerminateProcess`
is used only when no job is associated with the process. -/
theorem startBackgroundProcess_job_semantics :
    (∀ (command : Str) (args : List Str),
      (buildCommandLine command args).2.length < 32768 →
      startBackgroundProcess command args false false =
        .ok ({ job := some ⟨[], JOB_OBJECT_LIMIT_KILL_ON_JOB_CLOSE⟩,
               hProcess := true, exitStatus := none },
          [.createPipe, .createFileHandle, .createFileHandle,
           .createJobObject [] JOB_OBJECT_LIMIT_KILL_ON_JOB_CLOSE,
           .createProcess (buildCommandLine command args).2,
           .assignProcessToJobObject ⟨[], JOB_OBJECT_LIMIT_KILL_ON_JOB_CLOSE⟩]))
    ∧ (∀ st : ProcState, st.exitStatus = none → st.job ≠ none →
        stop st = [.terminateJobObject])
    ∧ (∀ st : ProcState, st.exitStatus = none →
        (WinApiCall.terminateProcess ∈ stop st ↔ st.job = none)) := by
  refine ⟨fun command args h => ?_, fun st h1 h2 => ?_, fun st h1 => ?_⟩
  · unfold startBackgroundProcess
    have h' : ¬ 32768 ≤ (buildCommandLine command args).2.length := by omega
    simp [h', createParentJob]
  · cases hj : st.job with
    | none => exact absurd hj h2
    | some j => simp [stop, h1, hj]
  · cases hj : st.job with
    | none => simp [stop, h1, hj]
    | some j => simp [stop, h1, hj]

/-- Witness for C3 at concrete inputs. -/
theorem startBackgroundProcess_job_semantics_witness :
    startBackgroundProcess ['c'] [] false false =
      .ok ({ job := some ⟨[], JOB_OBJECT_LIMIT_KILL_ON_JOB_CLOSE⟩,
             hProcess := true, exitStatus := none },
        [.createPipe, .createFileHandle, .createFileHandle,
         .createJobObject [] JOB_OBJECT_LIMIT_KILL_ON_JOB_CLOSE,
         .createProcess ['c'],
         .assignProcessToJobObject ⟨[], JOB_OBJECT_LIMIT_KILL_ON_JOB_CLOSE⟩])
    ∧ stop { job := some ⟨[], JOB_OBJECT_LIMIT_KILL_ON_JOB_CLOSE⟩,
             hProcess := true, exitStatus := none } = [.terminateJobObject] := by
  constructor
  · exact (startBackgroundProcess_job_semantics.1 ['c'] [] (by decide))
  · exact (startBackgroundProcess_job_semantics.2.1 _ rfl (by simp))

/-! ## C5: duplicate property names -/

/-- C5: defining a property via a `<property name=...>` element whose name is
already set raises `UserError`, and the whole `getProperties` load aborts with
that error (so the previously set value is never overwritten). -/
theorem duplicate_property_raises (env : OsEnv) (st : ParserState)
    (name value : Str) (defAttr : Option Str) (pme : Bool)
    (hdup : lookupProp st.properties name ≠ none) :
    (∃ e, processPropertyNode env st (.nameAttr name value defAttr pme) = .error e)
    ∧ (∀ nodes, ∃ e,
        getProperties env (.nameAttr name value defAttr pme :: nodes) st = .error e) := by
  have hstep : ∃ e, processPropertyNode env st (.nameAttr name value defAttr pme) = .error e := by
    cases hexp : expandProperties env st value defAttr with
    | error e =>
      exact ⟨e, by simp [processPropertyNode, hexp, exceptBind_error]⟩
    | ok v =>
      exact ⟨.duplicateProperty, by simp [processPropertyNode, hexp, exceptBind_ok, hdup]⟩
  refine ⟨hstep, fun nodes => ?_⟩
  obtain ⟨e, he⟩ := hstep
  exact ⟨e, by simp [getProperties, List.foldlM_cons, he, exceptBind_error]⟩

/-- Witness for C5: redefining the predefined `testRootDir` property fails. -/
theorem duplicate_property_raises_witness :
    ∃ e, processPropertyNode
      { envVars := [], propsFile := fun _ => none, pathExists := fun _ => false,
        joinPath := fun a b => a ++ '/' :: b, normpath := id,
        dirname := "/proj".toList, osfamily := "windows".toList }
      { environment := "env".toList, properties := [("testRootDir".toList, "/proj".toList)] }
      (.nameAttr "testRootDir".toList "other".toList none false) = .error e := by
  exact (duplicate_property_raises _ _ _ _ _ _ (by simp [lookupProp, List.find?])).1

/-! ## C6: pathMustExist semantics -/

/-- C6: a `<property name=...>` with `pathMustExist="true"` (name not yet set,
value expansion succeeding) fails with `UserError` exactly when the expanded
value is empty or the path does not exist relative to the project directory;
and a `<property file=...>` referencing a missing properties file raises
`UserError` iff `pathMustExist`, leaving the properties unchanged otherwise. -/
theorem pathMustExist_semantics :
    (∀ (env : OsEnv) (st : ParserState) (name value : Str) (defAttr : Option Str) (v : Str),
      lookupProp st.properties name = none →
      expandProperties env st value defAttr = .ok v →
      (processPropertyNode env st (.nameAttr name value defAttr true)
          = .error .pathMustExistFailed ↔
        (v = [] ∨ env.pathExists (env.joinPath env.dirname v) = false)))
    ∧ (∀ (env : OsEnv) (st : ParserState) (file : Str),
        env.propsFile file = none →
        getPropertiesFromFile env st file true = .error .missingPropertiesFile
        ∧ getPropertiesFromFile env st file false = .ok st) := by
  constructor
  · intro env st name value defAttr v hdup hexp
    by_cases hv : v = []
    · simp [processPropertyNode, hexp, exceptBind_ok, hdup, hv]
    · cases hpe : env.pathExists (env.joinPath env.dirname v) with
      | true => simp [processPropertyNode, hexp, exceptBind_ok, hdup, hv, hpe]
      | false => simp [processPropertyNode, hexp, exceptBind_ok, hdup, hv, hpe]
  · intro env st file h
    exact ⟨by simp [getPropertiesFromFile, h], by simp [getPropertiesFromFile, h]⟩

/-- Witness for C6 at concrete inputs: an empty expanded value fails the
`pathMustExist` check, and a missing properties file is skipped silently
without `pathMustExist`. -/
theorem pathMustExist_semantics_witness :
    (processPropertyNode
        { envVars := [], propsFile := fun _ => none, pathExists := fun _ => false,
          joinPath := fun a b => a ++ '/' :: b, normpath := id,
          dirname := "/proj".toList, osfamily := "windows".toList }
        { environment := "env".toList, properties := [] }
        (.nameAttr "p".toList [] none true) = .error .pathMustExistFailed)
    ∧ getPropertiesFromFile
        { envVars := [], propsFile := fun _ => none, pathExists := fun _ => false,
          joinPath := fun a b => a ++ '/' :: b, normpath := id,
          dirname := "/proj".toList, osfamily := "windows".toList }
        { environment := "env".toList, properties := [] } "x.properties".toList false
      = .ok { environment := "env".toList, properties := [] } := by
  constructor
  · exact (pathMustExist_semantics.1
      { envVars := [], propsFile := fun _ => none, pathExists := fun _ => false,
        joinPath := fun a b => a ++ '/' :: b, normpath := id,
        dirname := "/proj".toList, osfamily := "windows".toList }
      { environment := "env".toList, properties := [] }
      "p".toList [] none [] (by simp [lookupProp])
      (by simp [expandProperties, expandChars])).mpr (Or.inl rfl)
  · exact (pathMustExist_semantics.2
      { envVars := [], propsFile := fun _ => none, pathExists := fun _ => false,
        joinPath := fun a b => a ++ '/' :: b, normpath := id,
        dirname := "/proj".toList, osfamily := "windows".toList }
      { environment := "env".toList, properties := [] } "x.properties".toList rfl).2

/-! ## C2: size-bounded archiving -/

/-- Invariant of the archiver state: `archivesCreated` counts the archives kept
so far and stays within `maxArchives`. -/
theorem runArchiver_inv (cfg : ArchiveConfig) (_h : 0 ≤ cfg.maxArchives) :
    ∀ (calls : List ArchiveCall) (st : ArchiveState),
      st.archivesCreated = (st.archives.length : Int) →
      st.archivesCreated ≤ cfg.maxArchives →
      (runArchiver cfg calls st).archivesCreated
          = ((runArchiver cfg calls st).archives.length : Int)
      ∧ (runArchiver cfg calls st).archivesCreated ≤ cfg.maxArchives := by
  intro calls
  induction calls with
  | nil => intro st h1 h2; exact ⟨h1, h2⟩
  | cons c rest ih =>
    intro st h1 h2
    have hstep : (archiveTestOutputDir cfg st c.id c.outputDir c.files c.zipFileSize).archivesCreated
        = ((archiveTestOutputDir cfg st c.id c.outputDir c.files c.zipFileSize).archives.length : Int)
        ∧ (archiveTestOutputDir cfg st c.id c.outputDir c.files c.zipFileSize).archivesCreated
          ≤ cfg.maxArchives := by
      unfold archiveTestOutputDir
      by_cases hmax : st.archivesCreated = cfg.maxArchives
      · rw [if_pos hmax]
        exact ⟨h1, h2⟩
      · rw [if_neg hmax]
        by_cases hbytes : st.totalBytesRemaining < 500
        · rw [if_pos hbytes]
          exact ⟨h1, h2⟩
        · rw [if_neg hbytes]
          dsimp only
          split <;> split <;> (refine ⟨?_, ?_⟩ <;> simp <;> omega)
    have := ih (archiveTestOutputDir cfg st c.id c.outputDir c.files c.zipFileSize)
      hstep.1 hstep.2
    simpa [runArchiver, List.foldl_cons] using this

/-- C2: archiving is size-bounded: a run starting from `setup`'s state creates
at most `maxArchives` archives; once `archivesCreated` equals `maxArchives` or
fewer than 500 bytes remain of the total byte budget, `_archiveTestOutputDir`
only records the output directory in `skippedTests`; and `cleanup` writes the
skipped directories to `skipped_artifacts.txt` whenever there are any. -/
theorem archive_size_bounded :
    (∀ (cfg : ArchiveConfig) (calls : List ArchiveCall), 0 ≤ cfg.maxArchives →
      (runArchiver cfg calls (initArchiveState cfg)).archivesCreated ≤ cfg.maxArchives
      ∧ ((runArchiver cfg calls (initArchiveState cfg)).archives.length : Int)
          ≤ cfg.maxArchives)
    ∧ (∀ (cfg : ArchiveConfig) (st : ArchiveState) (id outputDir : Str)
        (files : List FileEntry) (zipFileSize : Nat),
        st.archivesCreated = cfg.maxArchives ∨ st.totalBytesRemaining < 500 →
        archiveTestOutputDir cfg st id outputDir files zipFileSize =
          { st with skippedTests := st.skippedTests ++ [outputDir] })
    ∧ (∀ (normpath : Str → Str) (st : ArchiveState), st.skippedTests ≠ [] →
        cleanupSkippedArtifacts normpath st = some (st.skippedTests.map normpath)) := by
  refine ⟨fun cfg calls h => ?_, fun cfg st id outputDir files zipFileSize h => ?_,
    fun normpath st h => ?_⟩
  · have := runArchiver_inv cfg h calls (initArchiveState cfg) (by simp [initArchiveState])
      (by simpa [initArchiveState] using h)
    exact ⟨this.2, this.1 ▸ this.2⟩
  · rcases h with h | h
    · unfold archiveTestOutputDir
      simp [h]
    · unfold archiveTestOutputDir
      split_ifs with hmax
      · simp [hmax]
      · simp [h]
  · simp [cleanupSkippedArtifacts, h]

/-- Witness for C2 at concrete inputs: with `maxArchives = 0` a call is skipped
and recorded, and cleanup reports it. -/
theorem archive_size_bounded_witness :
    (runArchiver
        { maxTotalBytes := 1024, maxArchiveBytes := 1024, maxArchives := 0,
          format := .zip, fileExcludesRegex := none, fileIncludesRegex := none,
          rootlen := 0 }
        [{ id := "T1".toList, outputDir := "/out/T1".toList, files := [], zipFileSize := 0 }]
        (initArchiveState
          { maxTotalBytes := 1024, maxArchiveBytes := 1024, maxArchives := 0,
            format := .zip, fileExcludesRegex := none, fileIncludesRegex := none,
            rootlen := 0 })).archivesCreated ≤ 0
    ∧ cleanupSkippedArtifacts id
        { totalBytesRemaining := 1024, skippedTests := ["/out/T1".toList],
          archivesCreated := 0, archives := [] } = some ["/out/T1".toList] := by
  constructor
  · exact (archive_size_bounded.1 _ _ (by norm_num)).1
  · exact archive_size_bounded.2.2 id _ (by simp)

/-! ## C7: report-and-continue archiving -/

/-- C7: a file whose archive write raises is recorded in `skippedFiles` and the
loop continues with the remaining files instead of aborting; and
`archiveAndPublish` replaces a file it cannot write even after retry with a
`.pysyserror.txt` placeholder entry and still completes the archive. -/
theorem archive_report_and_continue :
    (∀ (cfg : ArchiveConfig) (zs : ZipState) (files1 files2 : List FileEntry) (f : FileEntry),
      (match cfg.fileExcludesRegex with | some rx => rx f.fn | none => false) = false →
      (match cfg.fileIncludesRegex with | some rx => !rx f.fn | none => false) = false →
      f.size ≠ 0 →
      ¬ (files1.foldl (addFileToArchive cfg) zs).bytesRemaining < 500 →
      ¬ ((f.size : Int) > (files1.foldl (addFileToArchive cfg) zs).bytesRemaining) →
      f.addFails = true →
      (files1 ++ f :: files2).foldl (addFileToArchive cfg) zs
        = files2.foldl (addFileToArchive cfg)
            { files1.foldl (addFileToArchive cfg) zs with
              skippedFiles := (files1.foldl (addFileToArchive cfg) zs).skippedFiles ++ [f.fn] })
    ∧ (∀ (files1 files2 : List CollectFile) (f : CollectFile),
        f.isDestArchive = false → f.addResult = .fails →
        archiveAndPublish (files1 ++ f :: files2)
          = files2.foldl archiveAndPublishStep
              ((files1.foldl archiveAndPublishStep [])
                ++ [f.destname ++ ".pysyserror.txt".toList])) := by
  constructor
  · intro cfg zs files1 files2 f h1 h2 h3 h4 h5 h6
    rw [List.foldl_append, List.foldl_cons]
    congr 1
    generalize files1.foldl (addFileToArchive cfg) zs = zs1 at h4 h5 ⊢
    unfold addFileToArchive
    simp [h1, h2, h3, h4, h5, h6]
  · intro files1 files2 f h1 h2
    unfold archiveAndPublish
    rw [List.foldl_append, List.foldl_cons]
    congr 1
    unfold archiveAndPublishStep
    simp [h1, h2]

/-- Witness for C7 at concrete inputs. -/
theorem archive_report_and_continue_witness :
    ([{ fn := "/out/T1/run.log".toList, size := 10, compressSize := 5, addFails := true }]
        : List FileEntry).foldl
      (addFileToArchive
        { maxTotalBytes := 1024, maxArchiveBytes := 1024, maxArchives := 50,
          format := .zip, fileExcludesRegex := none, fileIncludesRegex := none, rootlen := 0 })
      { bytesRemaining := 1024, triedTmpZipFile := false, members := [],
        skippedFiles := [], filesInZip := 0 }
      = { bytesRemaining := 1024, triedTmpZipFile := false, members := [],
          skippedFiles := ["/out/T1/run.log".toList], filesInZip := 0 }
    ∧ archiveAndPublish
        [{ isDestArchive := false, destname := "a.txt".toList, addResult := .fails },
         { isDestArchive := false, destname := "b.txt".toList, addResult := .ok }]
      = ["a.txt.pysyserror.txt".toList, "b.txt".toList] := by
  constructor
  · have := archive_report_and_continue.1
      { maxTotalBytes := 1024, maxArchiveBytes := 1024, maxArchives := 50,
        format := .zip, fileExcludesRegex := none, fileIncludesRegex := none, rootlen := 0 }
      { bytesRemaining := 1024, triedTmpZipFile := false, members := [],
        skippedFiles := [], filesInZip := 0 }
      [] []
      { fn := "/out/T1/run.log".toList, size := 10, compressSize := 5, addFails := true }
      rfl rfl (by decide) (by decide) (by decide) rfl
    simpa using this
  · have := archive_report_and_continue.2
      [] [{ isDestArchive := false, destname := "b.txt".toList, addResult := .ok }]
      { isDestArchive := false, destname := "a.txt".toList, addResult := .fails }
      rfl rfl
    simpa [archiveAndPublishStep] using this

/-! ## C8: lock discipline -/

/-- C8 counterexample: it is not the case that every read or update of the
shared fields by every operation of the process wrapper happens under the
per-instance mutex: `_pollWaitUnlessProcessTerminated` reads the process handle
with no lock held (and `startBackgroundProcess` writes the fields under the
global `process_lock` instead). -/
theorem lock_discipline_counterexample :
    ¬ (∀ t ∈ processImplMethodTraces,
        accessesUnderLock .instanceLock isClaimField false t = true) := by
  intro h
  have := h tracePollWaitUnlessProcessTerminated (by simp [processImplMethodTraces])
  simp [tracePollWaitUnlessProcessTerminated, accessesUnderLock, isClaimField] at this

/-- C8 amended: `_writeStdin`, `setExitStatus` and `stop` perform all their
accesses to the shared fields under the per-instance mutex;
`startBackgroundProcess` performs its accesses under the global `process_lock`
instead; and `_pollWaitUnlessProcessTerminated`'s only field access is a single
(unlocked) read of the process handle. -/
theorem lock_discipline_amended :
    accessesUnderLock .instanceLock isClaimField false traceWriteStdin = true
    ∧ accessesUnderLock .instanceLock isClaimField false traceSetExitStatus = true
    ∧ accessesUnderLock .instanceLock isClaimField false traceStop = true
    ∧ accessesUnderLock .processLock (fun _ => true) false traceStartBackgroundProcess = true
    ∧ fieldAccesses tracePollWaitUnlessProcessTerminated
        = [.readField .hProcessField] := by
  refine ⟨rfl, rfl, rfl, rfl, rfl⟩

end PySys
